import Mathlib

/-!
# The array-backed integer stack of `05.OOP/01.Classes/01.Stack`

A shallow embedding of the class `stack` found in the three variants
`StackV0.0_Shallow`, `StackV0.1_ByRef` and `StackV0.3_OperatorOverloading`.

* C++ `int` values are integers.  The only arithmetic the class performs on
  them is `size - 1`, `++TOS`, `TOS--`, `stk_Num++` and `stk_Num--`; on a stack
  with `0 ≤ size` and `-1 ≤ TOS ≤ size - 1` none of the first three can leave
  the range of `int`, so no wrap-around is modelled.
* The free store is a list of cells; the address of an array is its index.  A
  cell is `some buf` while the array is allocated and `none` once released by
  `delete[]`.  `new int[n]` with `0 ≤ n` always succeeds and returns a fresh
  address; the content of a new array is indeterminate and is supplied by the
  caller of the model (the argument `junk`).
* Objects of class `stack` live in an object table; the address of an object
  (`this`, `&s`) is its index.  An entry is `none` once the destructor ran.
* `std::cout` is the list of the strings written so far.
* Every operation returns `Except Fault _`: `Fault.bad_array_new_length` is
  the exception thrown by `new int[n]` for a negative `n`, and
  `Fault.undefined` marks undefined behaviour (use of a released or missing
  array or object, an index outside its array, a second `delete[]`).
* `push`, `pop`, `printStack`, the constructors `stack()` and `stack(int)` and
  the destructor have the same text in the three variants and are embedded
  once.  The variants differ in copying: `StackV0.3_OperatorOverloading` defines
  `stack(stack&)` and `operator=`, the other two rely on the compiler-generated
  member-wise copies (`stack.implicit_copy`, `stack.implicit_assign`).
-/

namespace Stack

/-- Ways in which an operation fails to produce a result. -/
inductive Fault where
  | bad_array_new_length
  | undefined
deriving DecidableEq, Repr

/-- The free store. -/
abbrev Heap := List (Option (List Int))

/-- The data members `size`, `stk` and `TOS` of one object of class `stack`. -/
structure stack where
  size : Int
  stk : Nat
  TOS : Int
deriving DecidableEq, Repr

/-- The whole program state: free store, objects, the static member `stk_Num`
and the text written to `std::cout`. -/
structure Machine where
  heap : Heap
  objs : List (Option stack)
  stk_Num : Int
  out : List String
deriving DecidableEq, Repr

/-- The state in which `main` starts: `int stack::stk_Num=0;`. -/
def Machine.init : Machine := ⟨[], [], 0, []⟩

/-- The expression `new int[n]`. -/
def newArr (h : Heap) (n : Int) (junk : Nat → Int) : Except Fault (Nat × Heap) :=
  if n < 0 then .error .bad_array_new_length
  else .ok (h.length, h ++ [some ((List.range n.toNat).map junk)])

/-- The statement `delete[] p`. -/
def deleteArr (h : Heap) (p : Nat) : Except Fault Heap :=
  match h[p]? with
  | some (some _) => .ok (h.set p none)
  | _ => .error .undefined

/-- The rvalue `p[i]`. -/
def readAt (h : Heap) (p : Nat) (i : Int) : Except Fault Int :=
  if i < 0 then .error .undefined
  else
    match h[p]? with
    | some (some buf) =>
      match buf[i.toNat]? with
      | some v => .ok v
      | none => .error .undefined
    | _ => .error .undefined

/-- The assignment `p[i] = v`. -/
def writeAt (h : Heap) (p : Nat) (i : Int) (v : Int) : Except Fault Heap :=
  if i < 0 then .error .undefined
  else
    match h[p]? with
    | some (some buf) =>
      if i.toNat < buf.length then .ok (h.set p (some (buf.set i.toNat v)))
      else .error .undefined
    | _ => .error .undefined

/-- The object at address `this`, when one is alive there. -/
def getObj (m : Machine) (this : Nat) : Option stack :=
  match m.objs[this]? with
  | some (some s) => some s
  | _ => none

/-- Store the data members `s` into the object at address `this`. -/
def setObj (m : Machine) (this : Nat) (s : stack) : Machine :=
  { m with objs := m.objs.set this (some s) }

/-- The default constructor `stack()`; returns the address of the new object. -/
def stack.ctor (m : Machine) (junk : Nat → Int) : Except Fault (Nat × Machine) :=
  match newArr m.heap 10 junk with
  | .error e => .error e
  | .ok (p, h) =>
    .ok (m.objs.length,
      { m with heap := h, objs := m.objs ++ [some ⟨10, p, -1⟩], stk_Num := m.stk_Num + 1 })

/-- The constructor `stack(int size)`; returns the address of the new object. -/
def stack.ctor_size (m : Machine) (size : Int) (junk : Nat → Int) :
    Except Fault (Nat × Machine) :=
  match newArr m.heap size junk with
  | .error e => .error e
  | .ok (p, h) =>
    .ok (m.objs.length,
      { m with heap := h, objs := m.objs ++ [some ⟨size, p, -1⟩], stk_Num := m.stk_Num + 1 })

/-- The loop `for (i = start; i < start + count; i++) dst[i] = src[i];`. -/
def copyLoop (dst src : Nat) : Nat → Nat → Heap → Except Fault Heap
  | 0, _, h => .ok h
  | count + 1, i, h =>
    match readAt h src i with
    | .error e => .error e
    | .ok v =>
      match writeAt h dst i v with
      | .error e => .error e
      | .ok h1 => copyLoop dst src count (i + 1) h1

/-- The copy constructor `stack(stack& other)` of `StackV0.3_OperatorOverloading`:
all `size` slots are copied. -/
def stack.ctor_copy (m : Machine) (other : Nat) (junk : Nat → Int) :
    Except Fault (Nat × Machine) :=
  match getObj m other with
  | none => .error .undefined
  | some o =>
    match newArr m.heap o.size junk with
    | .error e => .error e
    | .ok (p, h) =>
      match copyLoop p o.stk o.size.toNat 0 h with
      | .error e => .error e
      | .ok h1 =>
        .ok (m.objs.length,
          { m with heap := h1, objs := m.objs ++ [some ⟨o.size, p, o.TOS⟩],
                   stk_Num := m.stk_Num + 1 })

/-- The copy assignment `operator=(const stack& s)` of
`StackV0.3_OperatorOverloading`, called on the object `this`. -/
def stack.operator_assign (m : Machine) (this s : Nat) (junk : Nat → Int) :
    Except Fault Machine :=
  if this = s then .ok m
  else
    match getObj m this, getObj m s with
    | some t, some o =>
      match deleteArr m.heap t.stk with
      | .error e => .error e
      | .ok h0 =>
        match newArr h0 o.size junk with
        | .error e => .error e
        | .ok (p, h) =>
          match copyLoop p o.stk (o.TOS + 1).toNat 0 h with
          | .error e => .error e
          | .ok h1 => .ok { m with heap := h1, objs := m.objs.set this (some ⟨o.size, p, o.TOS⟩) }
    | _, _ => .error .undefined

/-- The member function `int pop()`. -/
def stack.pop (m : Machine) (this : Nat) : Except Fault (Int × Machine) :=
  match getObj m this with
  | none => .error .undefined
  | some t =>
    if t.TOS ≥ 0 then
      match readAt m.heap t.stk t.TOS with
      | .error e => .error e
      | .ok v => .ok (v, setObj m this { t with TOS := t.TOS - 1 })
    else
      .ok (-1, { m with out := m.out ++ ["Stack is Empty\n"] })

/-- The member function `void push(int item)`. -/
def stack.push (m : Machine) (this : Nat) (item : Int) : Except Fault Machine :=
  match getObj m this with
  | none => .error .undefined
  | some t =>
    if t.TOS < t.size - 1 then
      match writeAt m.heap t.stk (t.TOS + 1) item with
      | .error e => .error e
      | .ok h => .ok (setObj { m with heap := h } this { t with TOS := t.TOS + 1 })
    else
      .ok { m with out := m.out ++ ["Stack is Full\n"] }

/-- The static member function `getSTKnum()`. -/
def stack.getSTKnum (m : Machine) : Int := m.stk_Num

/-- The destructor `~stack()`.  The store `stk = nullptr` is to an object whose
lifetime ends here, so the model only removes the object. -/
def stack.dtor (m : Machine) (this : Nat) : Except Fault Machine :=
  match getObj m this with
  | none => .error .undefined
  | some t =>
    match deleteArr m.heap t.stk with
    | .error e => .error e
    | .ok h => .ok { m with heap := h, objs := m.objs.set this none, stk_Num := m.stk_Num - 1 }

/-- The loop `for (i = start; i < start + count; i++) std::cout << p[i] << " ";`. -/
def printLoop (h : Heap) (p : Nat) : Nat → Nat → List String → Except Fault (List String)
  | 0, _, out => .ok out
  | count + 1, i, out =>
    match readAt h p i with
    | .error e => .error e
    | .ok v => printLoop h p count (i + 1) (out ++ [toString v, " "])

/-- The member function `void printStack()`. -/
def stack.printStack (m : Machine) (this : Nat) : Except Fault Machine :=
  match getObj m this with
  | none => .error .undefined
  | some t =>
    if t.TOS = -1 then .ok { m with out := m.out ++ ["Stack is Empty\n"] }
    else
      match printLoop m.heap t.stk (t.TOS + 1).toNat 0 (m.out ++ ["Stack elements: "]) with
      | .error e => .error e
      | .ok out => .ok { m with out := out ++ ["\n"] }

/-- The friend `void printStackObj(const stack& stackObj)` of `StackV0.1_ByRef`. -/
def printStackObj_ref (m : Machine) (stackObj : Nat) : Except Fault Machine :=
  match getObj m stackObj with
  | none => .error .undefined
  | some t =>
    if t.TOS = -1 then .ok { m with out := m.out ++ ["Stack is Empty\n"] }
    else
      match printLoop m.heap t.stk (t.TOS + 1).toNat 0 (m.out ++ ["Stack elements: "]) with
      | .error e => .error e
      | .ok out => .ok { m with out := out ++ ["\n"] }

/-- The copy constructor the compiler generates for `StackV0.0_Shallow` and
`StackV0.1_ByRef`, which declare none: the three data members are copied and
`stk_Num` is not touched. -/
def stack.implicit_copy (m : Machine) (other : Nat) : Except Fault (Nat × Machine) :=
  match getObj m other with
  | none => .error .undefined
  | some o => .ok (m.objs.length, { m with objs := m.objs ++ [some ⟨o.size, o.stk, o.TOS⟩] })

/-- The copy assignment the compiler generates for `StackV0.0_Shallow` and
`StackV0.1_ByRef`: the three data members are copied. -/
def stack.implicit_assign (m : Machine) (this s : Nat) : Except Fault Machine :=
  match getObj m this, getObj m s with
  | some _, some o => .ok (setObj m this ⟨o.size, o.stk, o.TOS⟩)
  | _, _ => .error .undefined

/-- The friend `void printStackObj(stack stackObj)` of `StackV0.0_Shallow`, from
the call to the return: the parameter is copy-initialised from the argument,
the body runs on the parameter, and the parameter is destroyed. -/
def printStackObj_val (m : Machine) (arg : Nat) : Except Fault Machine :=
  match stack.implicit_copy m arg with
  | .error e => .error e
  | .ok (stackObj, m1) =>
    match printStackObj_ref m1 stackObj with
    | .error e => .error e
    | .ok m2 => stack.dtor m2 stackObj

/-- Calls of `push`, one for each value of the list, in order. -/
def pushAll (m : Machine) (this : Nat) : List Int → Except Fault Machine
  | [] => .ok m
  | v :: vs =>
    match stack.push m this v with
    | .error e => .error e
    | .ok m1 => pushAll m1 this vs

/-- The given number of calls of `pop`; the returned values in call order. -/
def popN (m : Machine) (this : Nat) : Nat → Except Fault (List Int × Machine)
  | 0 => .ok ([], m)
  | n + 1 =>
    match stack.pop m this with
    | .error e => .error e
    | .ok (v, m1) =>
      match popN m1 this n with
      | .error e => .error e
      | .ok (vs, m2) => .ok (v :: vs, m2)

/-- The stored elements of the object at `this`, bottom to top: the slots
`0 .. TOS` of its array.  An observation used to state properties, not a member
of the class. -/
def snapshot (m : Machine) (this : Nat) : Option (List Int) :=
  match getObj m this with
  | none => none
  | some t =>
    match m.heap[t.stk]? with
    | some (some buf) => some (buf.take (t.TOS + 1).toNat)
    | _ => none

/-- The number of objects constructed and not yet destroyed. -/
def liveCount (m : Machine) : Nat := (m.objs.filter Option.isSome).length

/-- The object at `this` has data members `t`, its array is allocated with
content `buf` and `size` slots, and `TOS` is within `[-1, size - 1]`. -/
structure Owns (m : Machine) (this : Nat) (t : stack) (buf : List Int) : Prop where
  obj : getObj m this = some t
  arr : m.heap[t.stk]? = some (some buf)
  len : (buf.length : Int) = t.size
  lo : -1 ≤ t.TOS
  hi : t.TOS + 1 ≤ t.size

/-- The accessor `int getTOS()` of `StackV0.0_Shallow`. -/
def stack.getTOS (m : Machine) (this : Nat) : Except Fault Int :=
  match getObj m this with
  | none => .error .undefined
  | some t => .ok t.TOS

/-- The accessor `int getStkSize()` of `StackV0.0_Shallow`. -/
def stack.getStkSize (m : Machine) (this : Nat) : Except Fault Int :=
  match getObj m this with
  | none => .error .undefined
  | some t => .ok t.size

/-- The statement `std::cout << a << b << ...;`. -/
def cout (m : Machine) (text : List String) : Machine :=
  { m with out := m.out ++ text }

/-- The loop `for (int i = 1; i <= 12; ++i)` of `main` in `StackV0.1_ByRef` and
`StackV0.3_OperatorOverloading`, run for the values `i` of the list. -/
def pushLoop (s1 : Nat) : List Int → Machine → Except Fault Machine
  | [], m => .ok m
  | i :: is, m =>
    match stack.push (cout m ["Pushing ", toString i, " to s1.\n"]) s1 i with
    | .error e => .error e
    | .ok m1 => pushLoop s1 is m1

/-- The loop `for (int i = 1; i <= 12; ++i)` of `main` in `StackV0.0_Shallow`,
which tests `getTOS() < getStkSize() - 1` before it pushes. -/
def pushLoop_guarded (s1 : Nat) : List Int → Machine → Except Fault Machine
  | [], m => .ok m
  | i :: is, m =>
    match stack.getTOS m s1, stack.getStkSize m s1 with
    | .ok tos, .ok size =>
      if tos < size - 1 then
        match stack.push (cout m ["Pushing ", toString i, " to s1.\n"]) s1 i with
        | .error e => .error e
        | .ok m1 => pushLoop_guarded s1 is m1
      else pushLoop_guarded s1 is m
    | _, _ => .error .undefined

/-- The loop `for (int i = 0; i < 5; ++i)` of `main`, run the given number of
times: a popped value is announced unless it is `-1`. -/
def popLoop (s1 : Nat) : Nat → Machine → Except Fault Machine
  | 0, m => .ok m
  | n + 1, m =>
    match stack.pop m s1 with
    | .error e => .error e
    | .ok (value, m1) =>
      if value ≠ -1 then
        popLoop s1 n (cout m1 ["Popped ", toString value, " from s1.\n"])
      else popLoop s1 n m1

/-- The values `1, 2, ..., 12` of the loop variable of the pushing loop. -/
def oneToTwelve : List Int := [1, 2, 3, 4, 5, 6, 7, 8, 9, 10, 11, 12]

/-- The function `main` of `StackV0.3_OperatorOverloading` up to `return 0;`:
the result is the addresses of `s1` and `s2` and the state reached. -/
def main_V03_body (j1 j2 j3 : Nat → Int) : Except Fault (Nat × Nat × Machine) :=
  match stack.ctor Machine.init j1 with
  | .error e => .error e
  | .ok (s1, m1) =>
    match stack.ctor_size m1 10 j2 with
    | .error e => .error e
    | .ok (s2, m2) =>
      match pushLoop s1 oneToTwelve m2 with
      | .error e => .error e
      | .ok m3 =>
        match popLoop s1 5 m3 with
        | .error e => .error e
        | .ok m4 =>
          match stack.operator_assign m4 s2 s1 j3 with
          | .error e => .error e
          | .ok m5 =>
            match stack.printStack
                (cout m5 ["------------------Stack 1 Elements------------------\n"]) s1 with
            | .error e => .error e
            | .ok m6 =>
              match stack.printStack
                  (cout m6 ["------------------Stack 2 Elements------------------\n"]) s2 with
              | .error e => .error e
              | .ok m7 => .ok (s1, s2, m7)

/-- The function `main` of `StackV0.0_Shallow` up to the call
`printStackObj(s2)`: the addresses of `s1` and `s2` and the state reached. -/
def main_V00_before_call (j1 j2 : Nat → Int) : Except Fault (Nat × Nat × Machine) :=
  match stack.ctor Machine.init j1 with
  | .error e => .error e
  | .ok (s1, m1) =>
    match stack.ctor_size m1 10 j2 with
    | .error e => .error e
    | .ok (s2, m2) =>
      match pushLoop_guarded s1 oneToTwelve m2 with
      | .error e => .error e
      | .ok m3 =>
        match popLoop s1 5 m3 with
        | .error e => .error e
        | .ok m4 =>
          match stack.implicit_assign m4 s2 s1 with
          | .error e => .error e
          | .ok m5 =>
            match stack.printStack
                (cout m5 ["------------------Stack 1 Elements------------------\n"]) s1 with
            | .error e => .error e
            | .ok m6 =>
              .ok (s1, s2, cout m6 ["------------------Stack 2 Elements------------------\n"])

/-- The function `main` of `StackV0.0_Shallow` from its first statement to the
end of `return 0;`, where `s2` and then `s1` are destroyed. -/
def main_V00 (j1 j2 : Nat → Int) : Except Fault Machine :=
  match main_V00_before_call j1 j2 with
  | .error e => .error e
  | .ok (s1, s2, m) =>
    match printStackObj_val m s2 with
    | .error e => .error e
    | .ok m1 =>
      match stack.dtor m1 s2 with
      | .error e => .error e
      | .ok m2 => stack.dtor m2 s1

/-- The function `main` of `StackV0.3_OperatorOverloading` from its first
statement to the end of `return 0;`, where `s2` and then `s1` are destroyed. -/
def main_V03 (j1 j2 j3 : Nat → Int) : Except Fault Machine :=
  match main_V03_body j1 j2 j3 with
  | .error e => .error e
  | .ok (s1, s2, m) =>
    match stack.dtor m s2 with
    | .error e => .error e
    | .ok m1 => stack.dtor m1 s1

/-- The outcome of a run of `main` with the console text left out. -/
def silent (r : Except Fault (Nat × Nat × Machine)) : Except Fault (Nat × Nat × Machine) :=
  match r with
  | .error e => .error e
  | .ok (s1, s2, m) => .ok (s1, s2, { m with out := [] })

/-- A call that mutates one stack: `push(v)` or `pop()`. -/
inductive Mut where
  | push (v : Int)
  | pop
deriving DecidableEq, Repr

/-- Push or pop calls on the object at `this`, in order (popped values dropped). -/
def mutate (m : Machine) (this : Nat) : List Mut → Except Fault Machine
  | [] => .ok m
  | Mut.push v :: ops =>
    match stack.push m this v with
    | .error e => .error e
    | .ok m1 => mutate m1 this ops
  | Mut.pop :: ops =>
    match stack.pop m this with
    | .error e => .error e
    | .ok (_, m1) => mutate m1 this ops

/-- One use of the class `stack` of `StackV0.3_OperatorOverloading` by a
program: a constructor, the copy assignment, a member function or the
destructor, with the objects it is applied to. -/
inductive Op where
  | ctor (junk : Nat → Int)
  | ctor_size (size : Int) (junk : Nat → Int)
  | ctor_copy (other : Nat) (junk : Nat → Int)
  | assign (this s : Nat) (junk : Nat → Int)
  | push (this : Nat) (item : Int)
  | pop (this : Nat)
  | printStack (this : Nat)
  | dtor (this : Nat)

/-- The state after one use of the class. -/
def step (m : Machine) : Op → Except Fault Machine
  | Op.ctor junk =>
    match stack.ctor m junk with
    | .error e => .error e
    | .ok (_, m1) => .ok m1
  | Op.ctor_size size junk =>
    match stack.ctor_size m size junk with
    | .error e => .error e
    | .ok (_, m1) => .ok m1
  | Op.ctor_copy other junk =>
    match stack.ctor_copy m other junk with
    | .error e => .error e
    | .ok (_, m1) => .ok m1
  | Op.assign this s junk => stack.operator_assign m this s junk
  | Op.push this item => stack.push m this item
  | Op.pop this =>
    match stack.pop m this with
    | .error e => .error e
    | .ok (_, m1) => .ok m1
  | Op.printStack this => stack.printStack m this
  | Op.dtor this => stack.dtor m this

/-- The state after a sequence of uses of the class, in order. -/
def run (m : Machine) : List Op → Except Fault Machine
  | [] => .ok m
  | op :: ops =>
    match step m op with
    | .error e => .error e
    | .ok m1 => run m1 ops

/-- A short program: `stack(2)`, `stack(3)`, `push(1)` on the first stack,
`push(5)` and `push(6)` on the second; new arrays hold zeros. -/
def twoStacksOps : List Op :=
  [Op.ctor_size 2 (fun _ => 0), Op.ctor_size 3 (fun _ => 0), Op.push 0 1, Op.push 1 5,
    Op.push 1 6]

/-- The state `twoStacksOps` ends in: the first stack has capacity 2 and holds 1,
the second has capacity 3 and holds 5, 6. -/
def twoStacks : Machine :=
  ⟨[some [1, 0], some [5, 6, 0]], [some ⟨2, 0, 0⟩, some ⟨3, 1, 1⟩], 2, []⟩

/-- The stack invariant `0 ≤ TOS + 1 ≤ size`, for every live object. -/
def StackInv (m : Machine) : Prop :=
  ∀ i t, getObj m i = some t → 0 ≤ t.TOS + 1 ∧ t.TOS + 1 ≤ t.size

/-- The invariant of the data model, for a whole state: every live object has
`TOS` in `[-1, size - 1]` and owns an allocated array of `size` slots, and no two
live objects point to the same array. -/
def WellFormed (m : Machine) : Prop :=
  (∀ i t, getObj m i = some t → ∃ buf, Owns m i t buf) ∧
  (∀ i j ti tj, getObj m i = some ti → getObj m j = some tj → ti.stk = tj.stk → i = j)

/-- The function `main` of `StackV0.1_ByRef` up to `return 0;`: the addresses of
`s1` and `s2` and the state reached. -/
def main_V01_body (j1 j2 : Nat → Int) : Except Fault (Nat × Nat × Machine) :=
  match stack.ctor Machine.init j1 with
  | .error e => .error e
  | .ok (s1, m1) =>
    match stack.ctor_size m1 10 j2 with
    | .error e => .error e
    | .ok (s2, m2) =>
      match pushLoop s1 oneToTwelve m2 with
      | .error e => .error e
      | .ok m3 =>
        match popLoop s1 5 m3 with
        | .error e => .error e
        | .ok m4 =>
          match printStackObj_ref
              (cout m4 ["------------------Stack 1 Elements------------------\n"]) s1 with
          | .error e => .error e
          | .ok m5 => .ok (s1, s2, m5)

/-- The function `main` of `StackV0.1_ByRef` from its first statement to the end
of `return 0;`, where `s2` and then `s1` are destroyed. -/
def main_V01 (j1 j2 : Nat → Int) : Except Fault Machine :=
  match main_V01_body j1 j2 with
  | .error e => .error e
  | .ok (s1, s2, m) =>
    match stack.dtor m s2 with
    | .error e => .error e
    | .ok m1 => stack.dtor m1 s1

/-- The text the printing loop writes for the elements `xs`: each element
followed by a blank. -/
def elementsText : List Int → List String
  | [] => []
  | v :: vs => toString v :: " " :: elementsText vs

/-- The outcome of a whole run of `main` with the console text left out. -/
def silentRun (r : Except Fault Machine) : Except Fault Machine :=
  match r with
  | .error e => .error e
  | .ok m => .ok { m with out := [] }

end Stack

/-! # The class `complex` of `00.OOP/01.Classes/00.ComplexClass/complexClass.cc`

The data members `real` and `img` are C++ `int`s; sums and differences are
taken modulo `2^32` in two's complement (`wrap32`). -/

namespace ComplexClass

/-- The value of an `int` expression whose mathematical value is `x`: `x` reduced
modulo `2^32` into `[-2^31, 2^31 - 1]`. -/
def wrap32 (x : Int) : Int := (x + 2147483648) % 4294967296 - 2147483648

/-- The values an `int` can hold. -/
def isInt32 (x : Int) : Prop := -2147483648 ≤ x ∧ x ≤ 2147483647

instance (x : Int) : Decidable (isInt32 x) := by
  unfold isInt32; infer_instance

/-- The data members of one object of class `complex`. -/
structure complex where
  real : Int
  img : Int
deriving DecidableEq, Repr

/-- The default constructor `complex()`. -/
def complex.ctor : complex := ⟨0, 0⟩

/-- The constructor `complex(int num)`. -/
def complex.ctor_num (num : Int) : complex := ⟨num, num⟩

/-- The constructor `complex(int r, int i)`. -/
def complex.ctor_parts (r i : Int) : complex := ⟨r, i⟩

/-- The member function `void setComplex(int real, int img)`: the receiver after
the call. -/
def complex.setComplex (_this : complex) (real img : Int) : complex := ⟨real, img⟩

/-- The member function `int getReal() const`. -/
def complex.getReal (this : complex) : Int := this.real

/-- The member function `int getImg() const`. -/
def complex.getImg (this : complex) : Int := this.img

/-- The member function `complex addComplex(complex complexObj)`: the returned
object, the receiver after the call and the parameter object at the end of the
body. -/
def complex.addComplex (this complexObj : complex) : complex × complex × complex :=
  let temp := complex.ctor
  let temp := { temp with real := wrap32 (this.real + complexObj.real) }
  let temp := { temp with img := wrap32 (this.img + complexObj.img) }
  (temp, this, complexObj)

/-- The member function `complex subComplex(complex complexObj)`: the returned
object, the receiver after the call and the parameter object at the end of the
body. -/
def complex.subComplex (this complexObj : complex) : complex × complex × complex :=
  let temp := complex.ctor
  let temp := { temp with real := wrap32 (this.real - complexObj.real) }
  let temp := { temp with img := wrap32 (this.img - complexObj.img) }
  (temp, this, complexObj)

/-- The objects `c1`, `c3` and `result` of `main` at `return 0;`: `c1(7, 8)`,
`c3` set by `setComplex(7, 8)`, and `result = c1.subComplex(c3)`. -/
def main_objects : complex × complex × complex :=
  let c1 := complex.ctor_parts 7 8
  let c3 := complex.ctor.setComplex 7 8
  let (temp, c1, _) := c1.subComplex c3
  let result := temp
  (c1, c3, result)

end ComplexClass

/-! # The class `Book` of `05.OOP/03.OOP_Project/libSystem.cc` -/

namespace LibSystem

/-- The data members of one object of class `Book`. -/
structure Book where
  title : String
  author : String
  bookID : Int
  isAvailable : Bool
deriving DecidableEq, Repr

/-- The constructor `Book(std::string title, std::string author, int bookID)`. -/
def Book.ctor (title author : String) (bookID : Int) : Book :=
  ⟨title, author, bookID, true⟩

/-- The member function `bool checkAvailability() const`. -/
def Book.checkAvailability (this : Book) : Bool := this.isAvailable

/-- The member function `void borrowItem()`: the receiver after the call and the
text written to `std::cout`. -/
def Book.borrowItem (this : Book) : Book × List String :=
  if this.isAvailable then
    ({ this with isAvailable := false }, ["Book borrowed successfully!", "\n"])
  else
    (this, ["Book is not available!", "\n"])

/-- The member function `void returnItem()`: the receiver after the call and the
text written to `std::cout`. -/
def Book.returnItem (this : Book) : Book × List String :=
  ({ this with isAvailable := true }, ["Book returned successfully!", "\n"])

/-- A call of one of the two member functions of the interface `Borrowable`. -/
inductive Call where
  | borrowItem
  | returnItem
deriving DecidableEq, Repr

/-- A sequence of calls on one book, in order: the book after the calls and all
the text written. -/
def Book.calls (this : Book) : List Call → Book × List String
  | [] => (this, [])
  | Call.borrowItem :: cs =>
    let (b, text) := this.borrowItem
    let (b1, rest) := Book.calls b cs
    (b1, text ++ rest)
  | Call.returnItem :: cs =>
    let (b, text) := this.returnItem
    let (b1, rest) := Book.calls b cs
    (b1, text ++ rest)

end LibSystem

namespace Stack

/-! ## Basic facts about the object table and the free store -/

theorem getObj_lt {m : Machine} {i : Nat} {s : stack} (h : getObj m i = some s) :
    i < m.objs.length := by
  unfold getObj at h
  by_contra hc
  rw [List.getElem?_eq_none (by omega)] at h
  simp at h

theorem getObj_eq_some {m : Machine} {i : Nat} {s : stack} :
    getObj m i = some s ↔ m.objs[i]? = some (some s) := by
  unfold getObj
  constructor
  · intro h
    split at h
    · rename_i s1 h1
      simp at h
      rw [h1, h]
    · simp at h
  · intro h
    rw [h]

theorem getObj_setObj_same {m : Machine} {i : Nat} (s : stack) (h : i < m.objs.length) :
    getObj (setObj m i s) i = some s := by
  rw [getObj_eq_some]
  simp [setObj, List.getElem?_set_self, h]

theorem getObj_setObj_ne {m : Machine} {i j : Nat} (s : stack) (h : i ≠ j) :
    getObj (setObj m i s) j = getObj m j := by
  unfold getObj
  simp [setObj, List.getElem?_set_ne h]

theorem snapshot_of_owns {m : Machine} {this : Nat} {t : stack} {buf : List Int}
    (h : Owns m this t buf) : snapshot m this = some (buf.take (t.TOS + 1).toNat) := by
  simp [snapshot, h.obj, h.arr]

/-- What `push` does to a stack that is not full. -/
theorem push_eq {m : Machine} {this : Nat} {t : stack} {buf : List Int}
    (h : Owns m this t buf) (hroom : t.TOS < t.size - 1) (v : Int) :
    stack.push m this v = .ok
      ⟨m.heap.set t.stk (some (buf.set (t.TOS + 1).toNat v)),
       m.objs.set this (some ⟨t.size, t.stk, t.TOS + 1⟩), m.stk_Num, m.out⟩ := by
  have h1 := h.len
  have h2 := h.lo
  have h3 : ¬ (t.TOS + 1 < 0) := by omega
  have h4 : (t.TOS + 1).toNat < buf.length := by omega
  simp [stack.push, h.obj, hroom, writeAt, h.arr, h3, h4, setObj]

/-- What `pop` does to a stack that is not empty. -/
theorem pop_eq {m : Machine} {this : Nat} {t : stack} {buf : List Int}
    (h : Owns m this t buf) (hne : 0 ≤ t.TOS) :
    ∃ v, buf[t.TOS.toNat]? = some v ∧
      stack.pop m this = .ok (v,
        ⟨m.heap, m.objs.set this (some ⟨t.size, t.stk, t.TOS - 1⟩), m.stk_Num, m.out⟩) := by
  have h1 := h.len
  have h2 := h.hi
  have h4 : t.TOS.toNat < buf.length := by omega
  refine ⟨buf[t.TOS.toNat], by simp [h4], ?_⟩
  have h3 : ¬ (t.TOS < 0) := by omega
  simp [stack.pop, h.obj, hne, readAt, h.arr, h3, h4, setObj]

theorem owns_push {m : Machine} {this : Nat} {t : stack} {buf : List Int}
    (h : Owns m this t buf) (hroom : t.TOS < t.size - 1) (v : Int) :
    Owns ⟨m.heap.set t.stk (some (buf.set (t.TOS + 1).toNat v)),
       m.objs.set this (some ⟨t.size, t.stk, t.TOS + 1⟩), m.stk_Num, m.out⟩ this
      ⟨t.size, t.stk, t.TOS + 1⟩ (buf.set (t.TOS + 1).toNat v) := by
  have hl := getObj_lt h.obj
  have ha : t.stk < m.heap.length := by
    by_contra hc
    have := h.arr
    rw [List.getElem?_eq_none (by omega)] at this
    simp at this
  refine ⟨?_, ?_, ?_, ?_, ?_⟩
  · rw [getObj_eq_some]; simp [List.getElem?_set_self, hl]
  · simp [List.getElem?_set_self, ha]
  · simpa using h.len
  · have := h.lo; simp; omega
  · simp; omega

theorem owns_pop {m : Machine} {this : Nat} {t : stack} {buf : List Int}
    (h : Owns m this t buf) (hne : 0 ≤ t.TOS) :
    Owns ⟨m.heap, m.objs.set this (some ⟨t.size, t.stk, t.TOS - 1⟩), m.stk_Num, m.out⟩ this
      ⟨t.size, t.stk, t.TOS - 1⟩ buf := by
  have hl := getObj_lt h.obj
  refine ⟨?_, ?_, ?_, ?_, ?_⟩
  · rw [getObj_eq_some]; simp [List.getElem?_set_self, hl]
  · simpa using h.arr
  · simpa using h.len
  · simp; omega
  · have := h.hi; simp; omega

theorem take_set_succ (buf : List Int) (k : Nat) (v : Int) (hk : k < buf.length) :
    (buf.set k v).take (k + 1) = buf.take k ++ [v] := by
  induction buf generalizing k with
  | nil => simp at hk
  | cons x xs ih =>
    cases k with
    | zero => simp
    | succ k =>
      simp at hk
      simp [List.set, ih k hk]

theorem owns_out {m : Machine} {this : Nat} {t : stack} {buf : List Int}
    (h : Owns m this t buf) (out : List String) :
    Owns { m with out := out } this t buf :=
  ⟨by simpa [getObj] using h.obj, h.arr, h.len, h.lo, h.hi⟩

/-- What `push` does to a full stack. -/
theorem push_full_eq {m : Machine} {this : Nat} {t : stack}
    (h : getObj m this = some t) (hfull : ¬ t.TOS < t.size - 1) (v : Int) :
    stack.push m this v = .ok { m with out := m.out ++ ["Stack is Full\n"] } := by
  simp [stack.push, h, hfull]

/-- What `stack(int size)` does for a size that is not negative. -/
theorem ctor_size_eq (m : Machine) (c : Int) (junk : Nat → Int) (hc : 0 ≤ c) :
    stack.ctor_size m c junk = .ok (m.objs.length,
      ⟨m.heap ++ [some ((List.range c.toNat).map junk)],
       m.objs ++ [some ⟨c, m.heap.length, -1⟩], m.stk_Num + 1, m.out⟩) := by
  have h0 : ¬ c < 0 := by omega
  simp only [stack.ctor_size, newArr, h0, if_false]

/-- The stack a constructor leaves behind owns a fresh array and is empty. -/
theorem owns_ctor_size (m : Machine) (c : Int) (junk : Nat → Int) (hc : 0 ≤ c) :
    Owns ⟨m.heap ++ [some ((List.range c.toNat).map junk)],
       m.objs ++ [some ⟨c, m.heap.length, -1⟩], m.stk_Num + 1, m.out⟩
      m.objs.length ⟨c, m.heap.length, -1⟩ ((List.range c.toNat).map junk) := by
  refine ⟨?_, ?_, ?_, ?_, ?_⟩
  · rw [getObj_eq_some]; simp
  · simp
  · simp; omega
  · simp
  · simp; omega

/-- Pushing a list of values keeps as many of them as fit, and writes nothing
to `std::cout` when all of them fit. -/
theorem pushAll_spec (this : Nat) (vs : List Int) :
    ∀ (m : Machine) (t : stack) (buf : List Int), Owns m this t buf →
      ∃ m1 t1 buf1, pushAll m this vs = .ok m1 ∧ Owns m1 this t1 buf1 ∧
        t1.size = t.size ∧ t1.stk = t.stk ∧
        buf1.take (t1.TOS + 1).toNat = (buf.take (t.TOS + 1).toNat ++ vs).take t.size.toNat ∧
        (t.TOS + 1 + vs.length ≤ t.size → m1.out = m.out) := by
  induction vs with
  | nil =>
    intro m t buf h
    refine ⟨m, t, buf, rfl, h, rfl, rfl, ?_, fun _ => rfl⟩
    have h1 := h.len
    have h2 := h.hi
    have h3 := h.lo
    simp only [List.append_nil, List.take_take]
    congr 1
    omega
  | cons v vs ih =>
    intro m t buf h
    have h1 := h.len
    have h2 := h.hi
    have h3 := h.lo
    by_cases hroom : t.TOS < t.size - 1
    · obtain ⟨m1, t1, buf1, e1, o1, s1, p1, k1, u1⟩ := ih _ _ _ (owns_push h hroom v)
      refine ⟨m1, t1, buf1, ?_, o1, s1, p1, ?_, ?_⟩
      · simp only [pushAll, push_eq h hroom v]
        exact e1
      · rw [k1]
        have e : (t.TOS + 1 + 1).toNat = (t.TOS + 1).toNat + 1 := by omega
        simp only [e]
        rw [take_set_succ buf _ v (by omega)]
        simp
      · intro hfit
        simp only [List.length_cons, Nat.cast_add, Nat.cast_one] at hfit
        exact u1 (by simp only; omega)
    · obtain ⟨m1, t1, buf1, e1, o1, s1, p1, k1, _⟩ :=
        ih _ _ _ (owns_out h (m.out ++ ["Stack is Full\n"]))
      refine ⟨m1, t1, buf1, ?_, o1, s1, p1, ?_, ?_⟩
      · simp only [pushAll, push_full_eq h.obj hroom v]
        exact e1
      · rw [k1]
        have hl : (buf.take (t.TOS + 1).toNat).length = t.size.toNat := by
          simp; omega
        rw [List.take_append_eq_append_take, List.take_append_eq_append_take]
        simp [hl]
      · intro hfit
        simp only [List.length_cons, Nat.cast_add, Nat.cast_one] at hfit
        omega

/-- Popping as often as there are stored elements returns them top first and
writes nothing to `std::cout`. -/
theorem popN_spec (this : Nat) (n : Nat) :
    ∀ (m : Machine) (t : stack) (buf : List Int), Owns m this t buf → t.TOS + 1 = n →
      ∃ m1, popN m this n = .ok ((buf.take n).reverse, m1) ∧
        Owns m1 this ⟨t.size, t.stk, -1⟩ buf ∧ m1.out = m.out := by
  induction n with
  | zero =>
    intro m t buf h hn
    refine ⟨m, by simp [popN], ?_, rfl⟩
    have : t.TOS = -1 := by omega
    have e : t = ⟨t.size, t.stk, -1⟩ := by
      cases t; simp_all
    rw [← e]; exact h
  | succ n ih =>
    intro m t buf h hn
    have hne : 0 ≤ t.TOS := by omega
    obtain ⟨v, hv, hp⟩ := pop_eq h hne
    obtain ⟨m1, e1, o1, u1⟩ := ih _ _ _ (owns_pop h hne) (by simp; omega)
    refine ⟨m1, ?_, o1, u1⟩
    have hk : t.TOS.toNat = n := by omega
    rw [hk] at hv
    simp only [popN, hp, e1]
    rw [List.take_succ, hv]
    simp

set_option maxHeartbeats 1000000 in
/-- The run of `main` in `StackV0.3_OperatorOverloading`, evaluated: the state
before `return 0;`, console text left out. -/
theorem main_V03_body_eval (j1 j2 j3 : Nat → Int) :
    silent (main_V03_body j1 j2 j3) = .ok (0, 1,
      ⟨[some [1, 2, 3, 4, 5, 6, 7, 8, 9, 10], none,
        some [1, 2, 3, 4, 5, j3 5, j3 6, j3 7, j3 8, j3 9]],
       [some ⟨10, 0, 4⟩, some ⟨10, 2, 4⟩], 2, []⟩) := by
  have range10 : List.range 10 = [0, 1, 2, 3, 4, 5, 6, 7, 8, 9] := by decide
  simp [silent, main_V03_body, stack.ctor, stack.ctor_size, newArr, pushLoop, oneToTwelve,
    stack.push, cout, getObj, setObj, writeAt, popLoop, stack.pop, readAt,
    stack.operator_assign, deleteArr, copyLoop, stack.printStack, printLoop,
    range10, Machine.init]

set_option maxHeartbeats 1000000 in
/-- The run of `main` in `StackV0.0_Shallow` up to the call `printStackObj(s2)`,
evaluated, console text left out: after `s2 = s1` both objects point to the
array of `s1`. -/
theorem main_V00_before_call_eval (j1 j2 : Nat → Int) :
    silent (main_V00_before_call j1 j2) = .ok (0, 1,
      ⟨[some [1, 2, 3, 4, 5, 6, 7, 8, 9, 10],
        some [j2 0, j2 1, j2 2, j2 3, j2 4, j2 5, j2 6, j2 7, j2 8, j2 9]],
       [some ⟨10, 0, 4⟩, some ⟨10, 0, 4⟩], 2, []⟩) := by
  have range10 : List.range 10 = [0, 1, 2, 3, 4, 5, 6, 7, 8, 9] := by decide
  simp [silent, main_V00_before_call, stack.ctor, stack.ctor_size, newArr, pushLoop_guarded,
    oneToTwelve, stack.getTOS, stack.getStkSize, stack.push, cout, getObj, setObj, writeAt,
    popLoop, stack.pop, readAt, stack.implicit_assign, stack.printStack, printLoop,
    range10, Machine.init]

theorem silent_ok {r : Except Fault (Nat × Nat × Machine)} {s1 s2 : Nat} {m0 : Machine}
    (h : silent r = .ok (s1, s2, m0)) :
    ∃ m, r = .ok (s1, s2, m) ∧ m.heap = m0.heap ∧ m.objs = m0.objs ∧
      m.stk_Num = m0.stk_Num := by
  cases r with
  | error e => simp [silent] at h
  | ok x =>
    obtain ⟨a, b, m⟩ := x
    simp only [silent, Except.ok.injEq, Prod.mk.injEq] at h
    obtain ⟨rfl, rfl, rfl⟩ := h
    exact ⟨m, rfl, rfl, rfl, rfl⟩

theorem snapshot_congr {m m0 : Machine} (hh : m.heap = m0.heap) (ho : m.objs = m0.objs)
    (this : Nat) : snapshot m this = snapshot m0 this := by
  simp [snapshot, getObj, hh, ho]

/-! ## Copy assignment and separation -/

theorem heap_lt {h : Heap} {p : Nat} {c : Option (List Int)} (hp : h[p]? = some c) :
    p < h.length := by
  by_contra hc
  rw [List.getElem?_eq_none (by omega)] at hp
  simp at hp

/-- Ownership only depends on the object's entry and on the cell of its array. -/
theorem owns_of_same {m m1 : Machine} {j : Nat} {t : stack} {buf : List Int}
    (h : Owns m j t buf) (ho : m1.objs[j]? = m.objs[j]?)
    (hh : m1.heap[t.stk]? = m.heap[t.stk]?) : Owns m1 j t buf := by
  refine ⟨?_, ?_, h.len, h.lo, h.hi⟩
  · have := h.obj
    rw [getObj_eq_some] at this ⊢
    rw [ho, this]
  · rw [hh, h.arr]

/-- The copying loop writes the slots `i .. i + count - 1` of the source array
into the destination array and touches nothing else. -/
theorem copyLoop_spec (dst src : Nat) (sbuf : List Int) (hne : src ≠ dst) (count : Nat) :
    ∀ (i : Nat) (h : Heap) (dbuf : List Int),
      h[src]? = some (some sbuf) → h[dst]? = some (some dbuf) →
      i + count ≤ sbuf.length → i + count ≤ dbuf.length →
      ∃ dbuf1, copyLoop dst src count i h = .ok (h.set dst (some dbuf1)) ∧
        dbuf1.length = dbuf.length ∧
        (∀ k, i ≤ k → k < i + count → dbuf1[k]? = sbuf[k]?) ∧
        (∀ k, k < i ∨ i + count ≤ k → dbuf1[k]? = dbuf[k]?) := by
  induction count with
  | zero =>
    intro i h dbuf _ hd _ _
    refine ⟨dbuf, ?_, rfl, ?_, fun _ _ => rfl⟩
    · simp only [copyLoop]
      congr 1
      have hlt := heap_lt hd
      apply List.ext_getElem?
      intro k
      by_cases hk : k = dst
      · subst hk; simp [hlt, hd]
      · rw [List.getElem?_set_ne (Ne.symm hk)]
    · intro k h1 h2; omega
  | succ n ih =>
    intro i h dbuf hs hd hsl hdl
    have hslt := heap_lt hs
    have hdlt := heap_lt hd
    have hi1 : i < sbuf.length := by omega
    have hi2 : i < dbuf.length := by omega
    have hs1 : (h.set dst (some (dbuf.set i sbuf[i])))[src]? = some (some sbuf) := by
      rw [List.getElem?_set_ne (Ne.symm hne), hs]
    have hd1 : (h.set dst (some (dbuf.set i sbuf[i])))[dst]? = some (some (dbuf.set i sbuf[i])) := by
      simp [hdlt]
    obtain ⟨dbuf1, e1, l1, c1, f1⟩ := ih (i + 1) _ (dbuf.set i sbuf[i]) hs1 hd1 (by omega)
      (by simp; omega)
    refine ⟨dbuf1, ?_, by simpa using l1, ?_, ?_⟩
    · have hr : readAt h src (i : Int) = .ok sbuf[i] := by
        have : ¬ ((i : Int) < 0) := by omega
        simp [readAt, this, hs, hi1]
      have hw : writeAt h dst (i : Int) sbuf[i] = .ok (h.set dst (some (dbuf.set i sbuf[i]))) := by
        have : ¬ ((i : Int) < 0) := by omega
        simp [writeAt, this, hd, hi2]
      simp only [copyLoop, hr, hw, e1, List.set_set]
    · intro k h1 h2
      by_cases hk : k = i
      · subst hk
        rw [f1 k (Or.inl (by omega))]
        simp [hi1, hi2]
      · exact c1 k (by omega) (by omega)
    · intro k hk
      rw [f1 k (by omega)]
      rw [List.getElem?_set_ne (by omega)]


/-- What the copy assignment `a = b` does when `a` and `b` are different objects
that own different arrays. -/
theorem assign_spec {m : Machine} {a b : Nat} {ta tb : stack} {bufa bufb : List Int}
    (junk : Nat → Int) (hab : a ≠ b) (ha : Owns m a ta bufa) (hb : Owns m b tb bufb)
    (hsep : ta.stk ≠ tb.stk) :
    ∃ m1 buf1, stack.operator_assign m a b junk = .ok m1 ∧
      Owns m1 a ⟨tb.size, m.heap.length, tb.TOS⟩ buf1 ∧ Owns m1 b tb bufb ∧
      buf1.take (tb.TOS + 1).toNat = bufb.take (tb.TOS + 1).toNat ∧
      m1.heap[ta.stk]? = some none ∧ m1.out = m.out ∧ m1.stk_Num = m.stk_Num ∧
      (∀ j, j ≠ a → m1.objs[j]? = m.objs[j]?) ∧
      (∀ q, q ≠ ta.stk → q < m.heap.length → m1.heap[q]? = m.heap[q]?) ∧
      m1.objs = m.objs.set a (some ⟨tb.size, m.heap.length, tb.TOS⟩) := by
  have hal := heap_lt ha.arr
  have hbl := heap_lt hb.arr
  have hlen := hb.len
  have hlo := hb.lo
  have hhi := hb.hi
  have hsz : ¬ tb.size < 0 := by omega
  have hdel : deleteArr m.heap ta.stk = .ok (m.heap.set ta.stk none) := by
    simp [deleteArr, ha.arr]
  have hnew : newArr (m.heap.set ta.stk none) tb.size junk = .ok (m.heap.length,
      m.heap.set ta.stk none ++ [some ((List.range tb.size.toNat).map junk)]) := by
    simp [newArr, hsz]
  have hs : (m.heap.set ta.stk none ++ [some ((List.range tb.size.toNat).map junk)])[tb.stk]?
      = some (some bufb) := by
    rw [List.getElem?_append_left (by simpa using hbl),
      List.getElem?_set_ne hsep, hb.arr]
  have hd : (m.heap.set ta.stk none ++ [some ((List.range tb.size.toNat).map junk)])[m.heap.length]?
      = some (some ((List.range tb.size.toNat).map junk)) := by
    rw [List.getElem?_append_right (by simp)]
    simp
  obtain ⟨buf1, e1, l1, c1, _⟩ := copyLoop_spec m.heap.length tb.stk bufb (by omega)
    (tb.TOS + 1).toNat 0 _ _ hs hd (by omega) (by simp; omega)
  refine ⟨⟨(m.heap.set ta.stk none ++ [some ((List.range tb.size.toNat).map junk)]).set
      m.heap.length (some buf1), m.objs.set a (some ⟨tb.size, m.heap.length, tb.TOS⟩),
      m.stk_Num, m.out⟩, buf1, ?_, ?_, ?_, ?_, ?_, rfl, rfl, ?_, ?_, rfl⟩
  · simp only [stack.operator_assign, hab, if_false, ha.obj, hb.obj, hdel, hnew, e1]
  · refine ⟨?_, ?_, ?_, hlo, hhi⟩
    · rw [getObj_eq_some]
      simp [getObj_lt ha.obj]
    · simp
    · rw [l1]; simp; omega
  · apply owns_of_same hb
    · simp only
      rw [List.getElem?_set_ne hab]
    · simp only
      rw [List.getElem?_set_ne (by omega), List.getElem?_append_left (by simpa using hbl),
        List.getElem?_set_ne hsep]
  · apply List.ext_getElem?
    intro k
    by_cases hk : k < (tb.TOS + 1).toNat
    · rw [List.getElem?_take_of_lt hk, List.getElem?_take_of_lt hk]
      exact c1 k (by omega) (by omega)
    · rw [List.getElem?_take_eq_none (by omega), List.getElem?_take_eq_none (by omega)]
  · simp only
    rw [List.getElem?_set_ne (by omega), List.getElem?_append_left (by simpa using hal)]
    simp [hal]
  · intro j hj
    simp only
    rw [List.getElem?_set_ne (Ne.symm hj)]
  · intro q hq hql
    simp only
    rw [List.getElem?_set_ne (by omega), List.getElem?_append_left (by simpa using hql),
      List.getElem?_set_ne (Ne.symm hq)]

/-- A `push` on one stack keeps another stack that owns a different array. -/
theorem push_frame {m : Machine} {i j : Nat} {ti tj : stack} {bufi bufj : List Int}
    (hi : Owns m i ti bufi) (hj : Owns m j tj bufj) (hij : i ≠ j) (hsep : ti.stk ≠ tj.stk)
    (v : Int) :
    ∃ m1 ti1 bufi1, stack.push m i v = .ok m1 ∧ Owns m1 i ti1 bufi1 ∧ ti1.stk = ti.stk ∧
      Owns m1 j tj bufj := by
  by_cases hroom : ti.TOS < ti.size - 1
  · refine ⟨_, _, _, push_eq hi hroom v, owns_push hi hroom v, rfl, ?_⟩
    apply owns_of_same hj
    · simp only
      rw [List.getElem?_set_ne hij]
    · simp only
      rw [List.getElem?_set_ne hsep]
  · exact ⟨_, ti, bufi, push_full_eq hi.obj hroom v, owns_out hi _, rfl, owns_out hj _⟩

/-- A `pop` on one stack keeps another stack that owns a different array. -/
theorem pop_frame {m : Machine} {i j : Nat} {ti tj : stack} {bufi bufj : List Int}
    (hi : Owns m i ti bufi) (hj : Owns m j tj bufj) (hij : i ≠ j) :
    ∃ v m1 ti1, stack.pop m i = .ok (v, m1) ∧ Owns m1 i ti1 bufi ∧ ti1.stk = ti.stk ∧
      Owns m1 j tj bufj := by
  by_cases hne : 0 ≤ ti.TOS
  · obtain ⟨v, _, hp⟩ := pop_eq hi hne
    refine ⟨v, _, _, hp, owns_pop hi hne, rfl, ?_⟩
    apply owns_of_same hj
    · simp only
      rw [List.getElem?_set_ne hij]
    · rfl
  · refine ⟨-1, { m with out := m.out ++ ["Stack is Empty\n"] }, ti, ?_, owns_out hi _, rfl,
      owns_out hj _⟩
    have : ¬ ti.TOS ≥ 0 := by omega
    simp [stack.pop, hi.obj, this]

/-- Any sequence of `push` and `pop` calls on one stack succeeds and keeps another
stack that owns a different array: its data members and its array content. -/
theorem mutate_frame (i j : Nat) (hij : i ≠ j) (tj : stack) (bufj : List Int)
    (ops : List Mut) :
    ∀ (m : Machine) (ti : stack) (bufi : List Int), Owns m i ti bufi → Owns m j tj bufj →
      ti.stk ≠ tj.stk →
      ∃ m1 ti1 bufi1, mutate m i ops = .ok m1 ∧ Owns m1 i ti1 bufi1 ∧ ti1.stk = ti.stk ∧
        Owns m1 j tj bufj := by
  induction ops with
  | nil =>
    intro m ti bufi hi hj _
    exact ⟨m, ti, bufi, rfl, hi, rfl, hj⟩
  | cons op ops ih =>
    intro m ti bufi hi hj hsep
    cases op with
    | push v =>
      obtain ⟨m1, ti1, bufi1, e1, o1, s1, oj1⟩ := push_frame hi hj hij hsep v
      obtain ⟨m2, ti2, bufi2, e2, o2, s2, oj2⟩ := ih m1 ti1 bufi1 o1 oj1 (by rw [s1]; exact hsep)
      exact ⟨m2, ti2, bufi2, by simp only [mutate, e1, e2], o2, by rw [s2, s1], oj2⟩
    | pop =>
      obtain ⟨v, m1, ti1, e1, o1, s1, oj1⟩ := pop_frame hi hj hij
      obtain ⟨m2, ti2, bufi2, e2, o2, s2, oj2⟩ := ih m1 ti1 bufi o1 oj1 (by rw [s1]; exact hsep)
      exact ⟨m2, ti2, bufi2, by simp only [mutate, e1, e2], o2, by rw [s2, s1], oj2⟩

/-! ## The invariant on `TOS` -/

theorem stackInv_of_objs {m m1 : Machine} (h : StackInv m) (ho : m1.objs = m.objs) :
    StackInv m1 := by
  intro i t hi
  apply h i t
  rw [getObj_eq_some] at hi ⊢
  rw [← ho]; exact hi

theorem stackInv_append {m : Machine} (h : StackInv m) (t : stack)
    (ht : 0 ≤ t.TOS + 1 ∧ t.TOS + 1 ≤ t.size) (hp : Heap) (n : Int) (o : List String) :
    StackInv ⟨hp, m.objs ++ [some t], n, o⟩ := by
  intro i t1 hi
  rw [getObj_eq_some] at hi
  simp only at hi
  by_cases hlt : i < m.objs.length
  · rw [List.getElem?_append_left hlt] at hi
    exact h i t1 (getObj_eq_some.mpr hi)
  · rw [List.getElem?_append_right (by omega)] at hi
    by_cases h0 : i - m.objs.length = 0
    · rw [h0] at hi
      simp only [List.getElem?_cons_zero, Option.some.injEq] at hi
      rw [← hi]; exact ht
    · have : ([some t] : List (Option stack))[i - m.objs.length]? = none := by
        apply List.getElem?_eq_none
        simp; omega
      rw [this] at hi
      simp at hi

theorem stackInv_set {m : Machine} (h : StackInv m) (k : Nat) (t : stack)
    (ht : 0 ≤ t.TOS + 1 ∧ t.TOS + 1 ≤ t.size) (hp : Heap) (n : Int) (o : List String) :
    StackInv ⟨hp, m.objs.set k (some t), n, o⟩ := by
  intro i t1 hi
  rw [getObj_eq_some] at hi
  simp only at hi
  by_cases hik : k = i
  · subst hik
    by_cases hlt : k < m.objs.length
    · rw [List.getElem?_set_self hlt] at hi
      simp only [Option.some.injEq] at hi
      rw [← hi]; exact ht
    · rw [List.getElem?_eq_none (by simp; omega)] at hi
      simp at hi
  · rw [List.getElem?_set_ne hik] at hi
    exact h i t1 (getObj_eq_some.mpr hi)

theorem stackInv_set_none {m : Machine} (h : StackInv m) (k : Nat) (hp : Heap) (n : Int)
    (o : List String) : StackInv ⟨hp, m.objs.set k none, n, o⟩ := by
  intro i t1 hi
  rw [getObj_eq_some] at hi
  simp only at hi
  by_cases hik : k = i
  · subst hik
    by_cases hlt : k < m.objs.length
    · rw [List.getElem?_set_self hlt] at hi
      simp at hi
    · rw [List.getElem?_eq_none (by simp; omega)] at hi
      simp at hi
  · rw [List.getElem?_set_ne hik] at hi
    exact h i t1 (getObj_eq_some.mpr hi)

/-- Every use of the class keeps `0 ≤ TOS + 1 ≤ size` in every live object. -/
theorem stackInv_step (m m1 : Machine) (op : Op) (h : StackInv m)
    (hs : step m op = .ok m1) : StackInv m1 := by
  cases op with
  | ctor junk =>
    simp only [step, stack.ctor, newArr] at hs
    simp only [show ¬ ((10 : Int) < 0) by decide, if_false, Except.ok.injEq] at hs
    rw [← hs]
    exact stackInv_append h _ ⟨by simp, by simp⟩ _ _ _
  | ctor_size size junk =>
    simp only [step, stack.ctor_size, newArr] at hs
    by_cases hn : size < 0
    · simp [hn] at hs
    · simp only [hn, if_false, Except.ok.injEq] at hs
      rw [← hs]
      exact stackInv_append h _ ⟨by simp, by simp; omega⟩ _ _ _
  | ctor_copy other junk =>
    simp only [step] at hs
    cases hc : stack.ctor_copy m other junk with
    | error e => simp [hc] at hs
    | ok r =>
      obtain ⟨i, m2⟩ := r
      simp only [hc, Except.ok.injEq] at hs
      subst hs
      simp only [stack.ctor_copy] at hc
      cases ho : getObj m other with
      | none => simp [ho] at hc
      | some o =>
        simp only [ho] at hc
        split at hc
        · simp at hc
        · split at hc
          · simp at hc
          · simp only [Except.ok.injEq, Prod.mk.injEq] at hc
            rw [← hc.2]
            refine stackInv_append h _ ?_ _ _ _
            exact h other o ho
  | assign this s junk =>
    simp only [step, stack.operator_assign] at hs
    by_cases he : this = s
    · simp only [he, if_true, Except.ok.injEq] at hs
      rw [← hs]; exact h
    · simp only [he, if_false] at hs
      split at hs
      · rename_i t o ht ho
        split at hs
        · simp at hs
        · split at hs
          · simp at hs
          · split at hs
            · simp at hs
            · simp only [Except.ok.injEq] at hs
              rw [← hs]
              refine stackInv_set h _ _ ?_ _ _ _
              exact h s o ho
      · simp at hs
  | push this item =>
    simp only [step, stack.push] at hs
    cases ht : getObj m this with
    | none => simp [ht] at hs
    | some t =>
      simp only [ht] at hs
      have := h this t ht
      by_cases hroom : t.TOS < t.size - 1
      · simp only [hroom, if_true] at hs
        split at hs
        · simp at hs
        · simp only [Except.ok.injEq] at hs
          rw [← hs]
          exact stackInv_set h _ _ ⟨by simp; omega, by simp; omega⟩ _ _ _
      · simp only [hroom, if_false, Except.ok.injEq] at hs
        rw [← hs]
        exact stackInv_of_objs h rfl
  | pop this =>
    simp only [step, stack.pop] at hs
    cases ht : getObj m this with
    | none => simp [ht] at hs
    | some t =>
      simp only [ht] at hs
      have := h this t ht
      by_cases hne : t.TOS ≥ 0
      · simp only [hne, if_true] at hs
        split at hs
        · simp at hs
        · rename_i v m2 hv
          split at hv
          · simp at hv
          · simp only [Except.ok.injEq, Prod.mk.injEq] at hv hs
            rw [← hs, ← hv.2]
            exact stackInv_set h _ _ ⟨by simp; omega, by simp; omega⟩ _ _ _
      · simp only [hne, if_false, Except.ok.injEq] at hs
        rw [← hs]
        exact stackInv_of_objs h rfl
  | printStack this =>
    simp only [step, stack.printStack] at hs
    cases ht : getObj m this with
    | none => simp [ht] at hs
    | some t =>
      simp only [ht] at hs
      split at hs
      · simp only [Except.ok.injEq] at hs
        rw [← hs]; exact stackInv_of_objs h rfl
      · split at hs
        · simp at hs
        · simp only [Except.ok.injEq] at hs
          rw [← hs]; exact stackInv_of_objs h rfl
  | dtor this =>
    simp only [step, stack.dtor] at hs
    cases ht : getObj m this with
    | none => simp [ht] at hs
    | some t =>
      simp only [ht] at hs
      split at hs
      · simp at hs
      · simp only [Except.ok.injEq] at hs
        rw [← hs]
        exact stackInv_set_none h _ _ _ _

theorem stackInv_run (ops : List Op) :
    ∀ (m m1 : Machine), StackInv m → run m ops = .ok m1 → StackInv m1 := by
  induction ops with
  | nil =>
    intro m m1 h hr
    simp only [run, Except.ok.injEq] at hr
    rw [← hr]; exact h
  | cons op ops ih =>
    intro m m1 h hr
    simp only [run] at hr
    cases hs : step m op with
    | error e => simp [hs] at hr
    | ok m2 =>
      simp only [hs] at hr
      exact ih m2 m1 (stackInv_step m m2 op h hs) hr

/-! ## The instance counter of the deep-copy variant -/

theorem live_append (objs : List (Option stack)) (t : stack) :
    ((objs ++ [some t]).filter Option.isSome).length
      = (objs.filter Option.isSome).length + 1 := by
  simp [List.filter_append]

theorem live_set_some (objs : List (Option stack)) :
    ∀ (i : Nat) (t t1 : stack), objs[i]? = some (some t) →
      ((objs.set i (some t1)).filter Option.isSome).length
        = (objs.filter Option.isSome).length := by
  induction objs with
  | nil => intro i t t1 h; simp at h
  | cons x xs ih =>
    intro i t t1 h
    cases i with
    | zero =>
      simp only [List.getElem?_cons_zero, Option.some.injEq] at h
      subst h
      simp [List.filter]
    | succ i =>
      simp only [List.getElem?_cons_succ] at h
      have := ih i t t1 h
      cases x <;> simp [List.set, List.filter, this]

theorem live_set_none (objs : List (Option stack)) :
    ∀ (i : Nat) (t : stack), objs[i]? = some (some t) →
      ((objs.set i none).filter Option.isSome).length + 1
        = (objs.filter Option.isSome).length := by
  induction objs with
  | nil => intro i t h; simp at h
  | cons x xs ih =>
    intro i t h
    cases i with
    | zero =>
      simp only [List.getElem?_cons_zero, Option.some.injEq] at h
      subst h
      simp [List.filter]
    | succ i =>
      simp only [List.getElem?_cons_succ] at h
      have := ih i t h
      cases x <;> simp [List.set, List.filter, this]

/-- Every use of the class of `StackV0.3_OperatorOverloading` keeps `stk_Num`
equal to the number of live objects. -/
theorem counted_step (m m1 : Machine) (op : Op) (h : m.stk_Num = liveCount m)
    (hs : step m op = .ok m1) : m1.stk_Num = liveCount m1 := by
  cases op with
  | ctor junk =>
    simp only [step, stack.ctor, newArr] at hs
    simp only [show ¬ ((10 : Int) < 0) by decide, if_false, Except.ok.injEq] at hs
    rw [← hs]
    simp only [liveCount, live_append, h]
    push_cast; rfl
  | ctor_size size junk =>
    simp only [step, stack.ctor_size, newArr] at hs
    by_cases hn : size < 0
    · simp [hn] at hs
    · simp only [hn, if_false, Except.ok.injEq] at hs
      rw [← hs]
      simp only [liveCount, live_append, h]
      push_cast; rfl
  | ctor_copy other junk =>
    simp only [step] at hs
    cases hc : stack.ctor_copy m other junk with
    | error e => simp [hc] at hs
    | ok r =>
      obtain ⟨i, m2⟩ := r
      simp only [hc, Except.ok.injEq] at hs
      subst hs
      simp only [stack.ctor_copy] at hc
      cases ho : getObj m other with
      | none => simp [ho] at hc
      | some o =>
        simp only [ho] at hc
        split at hc
        · simp at hc
        · split at hc
          · simp at hc
          · simp only [Except.ok.injEq, Prod.mk.injEq] at hc
            rw [← hc.2]
            simp only [liveCount, live_append, h]
            push_cast; rfl
  | assign this s junk =>
    simp only [step, stack.operator_assign] at hs
    by_cases he : this = s
    · simp only [he, if_true, Except.ok.injEq] at hs
      rw [← hs]; exact h
    · simp only [he, if_false] at hs
      split at hs
      · rename_i t o ht ho
        split at hs
        · simp at hs
        · split at hs
          · simp at hs
          · split at hs
            · simp at hs
            · simp only [Except.ok.injEq] at hs
              rw [← hs]
              simp only [liveCount, live_set_some m.objs this t _ (getObj_eq_some.mp ht), h]
      · simp at hs
  | push this item =>
    simp only [step, stack.push] at hs
    cases ht : getObj m this with
    | none => simp [ht] at hs
    | some t =>
      simp only [ht] at hs
      by_cases hroom : t.TOS < t.size - 1
      · simp only [hroom, if_true] at hs
        split at hs
        · simp at hs
        · simp only [Except.ok.injEq] at hs
          rw [← hs]
          simp only [liveCount, setObj, live_set_some m.objs this t _ (getObj_eq_some.mp ht), h]
      · simp only [hroom, if_false, Except.ok.injEq] at hs
        rw [← hs]; exact h
  | pop this =>
    simp only [step, stack.pop] at hs
    cases ht : getObj m this with
    | none => simp [ht] at hs
    | some t =>
      simp only [ht] at hs
      by_cases hne : t.TOS ≥ 0
      · simp only [hne, if_true] at hs
        split at hs
        · simp at hs
        · rename_i v m2 hv
          split at hv
          · simp at hv
          · simp only [Except.ok.injEq, Prod.mk.injEq] at hv hs
            rw [← hs, ← hv.2]
            simp only [liveCount, setObj, live_set_some m.objs this t _ (getObj_eq_some.mp ht), h]
      · simp only [hne, if_false, Except.ok.injEq] at hs
        rw [← hs]; exact h
  | printStack this =>
    simp only [step, stack.printStack] at hs
    cases ht : getObj m this with
    | none => simp [ht] at hs
    | some t =>
      simp only [ht] at hs
      split at hs
      · simp only [Except.ok.injEq] at hs
        rw [← hs]; exact h
      · split at hs
        · simp at hs
        · simp only [Except.ok.injEq] at hs
          rw [← hs]; exact h
  | dtor this =>
    simp only [step, stack.dtor] at hs
    cases ht : getObj m this with
    | none => simp [ht] at hs
    | some t =>
      simp only [ht] at hs
      split at hs
      · simp at hs
      · simp only [Except.ok.injEq] at hs
        rw [← hs]
        have := live_set_none m.objs this t (getObj_eq_some.mp ht)
        simp only [liveCount] at h ⊢
        omega

/-- In every state a run of the deep-copy variant reaches, `getSTKnum()` is the
number of stacks constructed and not yet destroyed. -/
theorem counted_run (ops : List Op) :
    ∀ (m m1 : Machine), m.stk_Num = liveCount m → run m ops = .ok m1 →
      stack.getSTKnum m1 = liveCount m1 := by
  induction ops with
  | nil =>
    intro m m1 h hr
    simp only [run, Except.ok.injEq] at hr
    rw [← hr]; exact h
  | cons op ops ih =>
    intro m m1 h hr
    simp only [run] at hr
    cases hs : step m op with
    | error e => simp [hs] at hr
    | ok m2 =>
      simp only [hs] at hr
      exact ih m2 m1 (counted_step m m2 op h hs) hr

/-! ## Exclusive ownership in the deep-copy variant -/

theorem wellFormed_init : WellFormed Machine.init := by
  refine ⟨?_, ?_⟩
  · intro i t h
    simp [getObj, Machine.init] at h
  · intro i j ti tj h
    simp [getObj, Machine.init] at h

/-- A state whose objects and arrays are those of a well-formed state is
well-formed. -/
theorem wellFormed_of_same {m m1 : Machine} (h : WellFormed m) (ho : m1.objs = m.objs)
    (hh : m1.heap = m.heap) : WellFormed m1 := by
  have hg : ∀ i, getObj m1 i = getObj m i := by
    intro i; simp [getObj, ho]
  refine ⟨?_, ?_⟩
  · intro i t hi
    rw [hg] at hi
    obtain ⟨buf, o⟩ := h.1 i t hi
    exact ⟨buf, owns_of_same o (by rw [ho]) (by rw [hh])⟩
  · intro i j ti tj hi hj
    rw [hg] at hi hj
    exact h.2 i j ti tj hi hj

/-- A new object that owns a new array at the end of the free store, which may
extend or overwrite only cells outside the old arrays, keeps the state
well-formed. -/
theorem wellFormed_append {m : Machine} (h : WellFormed m) (t : stack) (buf : List Int)
    (hp : Heap) (n : Int) (o : List String)
    (hold : ∀ q, q < m.heap.length → hp[q]? = m.heap[q]?)
    (hnew : hp[m.heap.length]? = some (some buf)) (hstk : t.stk = m.heap.length)
    (hlen : (buf.length : Int) = t.size) (hlo : -1 ≤ t.TOS) (hhi : t.TOS + 1 ≤ t.size) :
    WellFormed ⟨hp, m.objs ++ [some t], n, o⟩ := by
  have key : ∀ i ti, getObj ⟨hp, m.objs ++ [some t], n, o⟩ i = some ti →
      (i < m.objs.length ∧ getObj m i = some ti) ∨ (i = m.objs.length ∧ ti = t) := by
    intro i ti hi
    rw [getObj_eq_some] at hi
    simp only at hi
    by_cases hlt : i < m.objs.length
    · rw [List.getElem?_append_left hlt] at hi
      exact Or.inl ⟨hlt, getObj_eq_some.mpr hi⟩
    · rw [List.getElem?_append_right (by omega)] at hi
      by_cases h0 : i - m.objs.length = 0
      · rw [h0] at hi
        simp only [List.getElem?_cons_zero, Option.some.injEq] at hi
        exact Or.inr ⟨by omega, hi.symm⟩
      · have : ([some t] : List (Option stack))[i - m.objs.length]? = none := by
          apply List.getElem?_eq_none
          simp; omega
        rw [this] at hi
        simp at hi
  refine ⟨?_, ?_⟩
  · intro i ti hi
    rcases key i ti hi with ⟨hlt, hg⟩ | ⟨rfl, rfl⟩
    · obtain ⟨b, ow⟩ := h.1 i ti hg
      refine ⟨b, owns_of_same ow ?_ ?_⟩
      · simp only
        rw [List.getElem?_append_left hlt]
      · exact hold _ (heap_lt ow.arr)
    · exact ⟨buf, hi, by simp only; rw [hstk, hnew], hlen, hlo, hhi⟩
  · intro i j ti tj hi hj hs
    rcases key i ti hi with ⟨_, hgi⟩ | ⟨rfl, rfl⟩
    · rcases key j tj hj with ⟨_, hgj⟩ | ⟨rfl, rfl⟩
      · exact h.2 i j ti tj hgi hgj hs
      · obtain ⟨b, ow⟩ := h.1 i ti hgi
        have := heap_lt ow.arr
        omega
    · rcases key j tj hj with ⟨_, hgj⟩ | ⟨rfl, rfl⟩
      · obtain ⟨b, ow⟩ := h.1 j tj hgj
        have := heap_lt ow.arr
        omega
      · rfl

/-- Replacing the data members of a live object by members that keep, or change
only the content of, its array keeps the state well-formed. -/
theorem wellFormed_set {m : Machine} (h : WellFormed m) (k : Nat) (t t1 : stack)
    (buf1 : List Int) (hp : Heap) (n : Int) (o : List String)
    (hk : getObj m k = some t) (hstk : t1.stk = t.stk)
    (hold : ∀ q, q ≠ t.stk → hp[q]? = m.heap[q]?)
    (hnew : hp[t.stk]? = some (some buf1))
    (hlen : (buf1.length : Int) = t1.size) (hlo : -1 ≤ t1.TOS) (hhi : t1.TOS + 1 ≤ t1.size) :
    WellFormed ⟨hp, m.objs.set k (some t1), n, o⟩ := by
  have hkl := getObj_lt hk
  have key : ∀ i ti, getObj ⟨hp, m.objs.set k (some t1), n, o⟩ i = some ti →
      (i ≠ k ∧ getObj m i = some ti) ∨ (i = k ∧ ti = t1) := by
    intro i ti hi
    rw [getObj_eq_some] at hi
    simp only at hi
    by_cases hik : k = i
    · subst hik
      rw [List.getElem?_set_self hkl] at hi
      simp only [Option.some.injEq] at hi
      exact Or.inr ⟨rfl, hi.symm⟩
    · rw [List.getElem?_set_ne hik] at hi
      exact Or.inl ⟨Ne.symm hik, getObj_eq_some.mpr hi⟩
  refine ⟨?_, ?_⟩
  · intro i ti hi
    rcases key i ti hi with ⟨hne, hg⟩ | ⟨rfl, rfl⟩
    · obtain ⟨b, ow⟩ := h.1 i ti hg
      have hsep : ti.stk ≠ t.stk := fun e => hne (h.2 i k ti t hg hk e)
      refine ⟨b, owns_of_same ow ?_ (hold _ hsep)⟩
      simp only
      rw [List.getElem?_set_ne (Ne.symm hne)]
    · exact ⟨buf1, hi, by simp only; rw [hstk, hnew], hlen, hlo, hhi⟩
  · intro i j ti tj hi hj hs
    rcases key i ti hi with ⟨hni, hgi⟩ | ⟨rfl, rfl⟩
    · rcases key j tj hj with ⟨_, hgj⟩ | ⟨rfl, rfl⟩
      · exact h.2 i j ti tj hgi hgj hs
      · exact h.2 i j ti t hgi hk (by rw [hs, hstk])
    · rcases key j tj hj with ⟨hnj, hgj⟩ | ⟨rfl, rfl⟩
      · exact (h.2 j i tj t hgj hk (by rw [← hs, hstk])).symm
      · rfl

/-- Destroying a live object and releasing its array keeps the state
well-formed. -/
theorem wellFormed_remove {m : Machine} (h : WellFormed m) (k : Nat) (t : stack)
    (n : Int) (o : List String) (hk : getObj m k = some t) :
    WellFormed ⟨m.heap.set t.stk none, m.objs.set k none, n, o⟩ := by
  have hkl := getObj_lt hk
  have key : ∀ i ti, getObj ⟨m.heap.set t.stk none, m.objs.set k none, n, o⟩ i = some ti →
      i ≠ k ∧ getObj m i = some ti := by
    intro i ti hi
    rw [getObj_eq_some] at hi
    simp only at hi
    by_cases hik : k = i
    · subst hik
      rw [List.getElem?_set_self hkl] at hi
      simp at hi
    · rw [List.getElem?_set_ne hik] at hi
      exact ⟨Ne.symm hik, getObj_eq_some.mpr hi⟩
  refine ⟨?_, ?_⟩
  · intro i ti hi
    obtain ⟨hne, hg⟩ := key i ti hi
    obtain ⟨b, ow⟩ := h.1 i ti hg
    have hsep : t.stk ≠ ti.stk := fun e => hne (h.2 i k ti t hg hk e.symm)
    refine ⟨b, owns_of_same ow ?_ ?_⟩
    · simp only
      rw [List.getElem?_set_ne (Ne.symm hne)]
    · simp only
      rw [List.getElem?_set_ne hsep]
  · intro i j ti tj hi hj hs
    exact h.2 i j ti tj (key i ti hi).2 (key j tj hj).2 hs

/-- Giving a live object a new array at the end of the free store, its old
array being released, keeps the state well-formed. -/
theorem wellFormed_reassign {m : Machine} (h : WellFormed m) (k : Nat) (t t1 : stack)
    (buf1 : List Int) (hp : Heap) (n : Int) (o : List String)
    (hk : getObj m k = some t) (hstk : t1.stk = m.heap.length)
    (hold : ∀ q, q ≠ t.stk → q < m.heap.length → hp[q]? = m.heap[q]?)
    (hnew : hp[m.heap.length]? = some (some buf1))
    (hlen : (buf1.length : Int) = t1.size) (hlo : -1 ≤ t1.TOS) (hhi : t1.TOS + 1 ≤ t1.size) :
    WellFormed ⟨hp, m.objs.set k (some t1), n, o⟩ := by
  have hkl := getObj_lt hk
  have key : ∀ i ti, getObj ⟨hp, m.objs.set k (some t1), n, o⟩ i = some ti →
      (i ≠ k ∧ getObj m i = some ti) ∨ (i = k ∧ ti = t1) := by
    intro i ti hi
    rw [getObj_eq_some] at hi
    simp only at hi
    by_cases hik : k = i
    · subst hik
      rw [List.getElem?_set_self hkl] at hi
      simp only [Option.some.injEq] at hi
      exact Or.inr ⟨rfl, hi.symm⟩
    · rw [List.getElem?_set_ne hik] at hi
      exact Or.inl ⟨Ne.symm hik, getObj_eq_some.mpr hi⟩
  refine ⟨?_, ?_⟩
  · intro i ti hi
    rcases key i ti hi with ⟨hne, hg⟩ | ⟨rfl, rfl⟩
    · obtain ⟨b, ow⟩ := h.1 i ti hg
      have hsep : ti.stk ≠ t.stk := fun e => hne (h.2 i k ti t hg hk e)
      refine ⟨b, owns_of_same ow ?_ (hold _ hsep (heap_lt ow.arr))⟩
      simp only
      rw [List.getElem?_set_ne (Ne.symm hne)]
    · exact ⟨buf1, hi, by simp only; rw [hstk, hnew], hlen, hlo, hhi⟩
  · intro i j ti tj hi hj hs
    rcases key i ti hi with ⟨hni, hgi⟩ | ⟨rfl, rfl⟩
    · rcases key j tj hj with ⟨_, hgj⟩ | ⟨rfl, rfl⟩
      · exact h.2 i j ti tj hgi hgj hs
      · obtain ⟨b, ow⟩ := h.1 i ti hgi
        have := heap_lt ow.arr
        omega
    · rcases key j tj hj with ⟨hnj, hgj⟩ | ⟨rfl, rfl⟩
      · obtain ⟨b, ow⟩ := h.1 j tj hgj
        have := heap_lt ow.arr
        omega
      · rfl

/-- Every use of the class of `StackV0.3_OperatorOverloading` that returns keeps
the state well-formed. -/
theorem wellFormed_step (m m1 : Machine) (op : Op) (h : WellFormed m)
    (hs : step m op = .ok m1) : WellFormed m1 := by
  cases op with
  | ctor junk =>
    simp only [step, stack.ctor, newArr] at hs
    simp only [show ¬ ((10 : Int) < 0) by decide, if_false, Except.ok.injEq] at hs
    rw [← hs]
    refine wellFormed_append h _ ((List.range (10 : Int).toNat).map junk) _ _ _ ?_ ?_ rfl
      ?_ ?_ ?_
    · intro q hq; rw [List.getElem?_append_left hq]
    · rw [List.getElem?_append_right (by simp)]; simp
    · simp
    · simp
    · simp
  | ctor_size size junk =>
    simp only [step, stack.ctor_size, newArr] at hs
    by_cases hn : size < 0
    · simp [hn] at hs
    · simp only [hn, if_false, Except.ok.injEq] at hs
      rw [← hs]
      refine wellFormed_append h _ ((List.range size.toNat).map junk) _ _ _ ?_ ?_ rfl
        ?_ ?_ ?_
      · intro q hq; rw [List.getElem?_append_left hq]
      · rw [List.getElem?_append_right (by simp)]; simp
      · simp; omega
      · simp
      · simp; omega
  | ctor_copy other junk =>
    simp only [step] at hs
    cases hc : stack.ctor_copy m other junk with
    | error e => simp [hc] at hs
    | ok r =>
      obtain ⟨i, m2⟩ := r
      simp only [hc, Except.ok.injEq] at hs
      subst hs
      cases ho : getObj m other with
      | none => simp [stack.ctor_copy, ho] at hc
      | some o =>
        obtain ⟨sbuf, ow⟩ := h.1 other o ho
        have hlen := ow.len
        have hlo := ow.lo
        have hhi := ow.hi
        have hol := heap_lt ow.arr
        have hsz : ¬ o.size < 0 := by omega
        have hsrc : (m.heap ++ [some ((List.range o.size.toNat).map junk)])[o.stk]?
            = some (some sbuf) := by
          rw [List.getElem?_append_left hol, ow.arr]
        have hdst : (m.heap ++ [some ((List.range o.size.toNat).map junk)])[m.heap.length]?
            = some (some ((List.range o.size.toNat).map junk)) := by
          rw [List.getElem?_append_right (by simp)]; simp
        obtain ⟨buf1, e1, l1, _, _⟩ := copyLoop_spec m.heap.length o.stk sbuf (by omega)
          o.size.toNat 0 _ _ hsrc hdst (by omega) (by simp)
        simp only [stack.ctor_copy, ho, newArr, hsz, if_false, e1, Except.ok.injEq,
          Prod.mk.injEq] at hc
        rw [← hc.2]
        refine wellFormed_append h _ buf1 _ _ _ ?_ ?_ rfl ?_ hlo hhi
        · intro q hq
          rw [List.getElem?_set_ne (by omega), List.getElem?_append_left hq]
        · simp
        · rw [l1]; simp; omega
  | assign this s junk =>
    simp only [step] at hs
    by_cases he : this = s
    · simp only [stack.operator_assign, he, if_true, Except.ok.injEq] at hs
      rw [← hs]; exact h
    · cases ht : getObj m this with
      | none => simp [stack.operator_assign, he, ht] at hs
      | some t =>
        cases ho : getObj m s with
        | none => simp [stack.operator_assign, he, ht, ho] at hs
        | some o =>
          obtain ⟨bt, owt⟩ := h.1 this t ht
          obtain ⟨bo, owo⟩ := h.1 s o ho
          have hsep : t.stk ≠ o.stk := fun e => he (h.2 this s t o ht ho e)
          obtain ⟨m2, buf1, e2, oa, _, _, _, _, _, _, hfr, hobjs⟩ :=
            assign_spec junk he owt owo hsep
          rw [e2] at hs
          simp only [Except.ok.injEq] at hs
          subst hs
          have hw := wellFormed_reassign h this t ⟨o.size, m.heap.length, o.TOS⟩ buf1
            m2.heap m2.stk_Num m2.out ht rfl hfr oa.arr oa.len oa.lo oa.hi
          rw [← hobjs] at hw
          exact hw
  | push this item =>
    simp only [step] at hs
    cases ht : getObj m this with
    | none => simp [stack.push, ht] at hs
    | some t =>
      obtain ⟨buf, ow⟩ := h.1 this t ht
      by_cases hroom : t.TOS < t.size - 1
      · rw [push_eq ow hroom item] at hs
        simp only [Except.ok.injEq] at hs
        rw [← hs]
        have o1 := owns_push ow hroom item
        refine wellFormed_set h this t _ _ _ _ _ ht rfl ?_ ?_ o1.len o1.lo o1.hi
        · intro q hq
          rw [List.getElem?_set_ne (Ne.symm hq)]
        · simp [heap_lt ow.arr]
      · rw [push_full_eq ht hroom item] at hs
        simp only [Except.ok.injEq] at hs
        rw [← hs]
        exact wellFormed_of_same h rfl rfl
  | pop this =>
    simp only [step] at hs
    cases ht : getObj m this with
    | none => simp [stack.pop, ht] at hs
    | some t =>
      obtain ⟨buf, ow⟩ := h.1 this t ht
      by_cases hne : 0 ≤ t.TOS
      · obtain ⟨v, _, hp⟩ := pop_eq ow hne
        rw [hp] at hs
        simp only [Except.ok.injEq] at hs
        rw [← hs]
        have o1 := owns_pop ow hne
        exact wellFormed_set h this t _ buf _ _ _ ht rfl (fun _ _ => rfl) ow.arr
          o1.len o1.lo o1.hi
      · have hlt : ¬ t.TOS ≥ 0 := by omega
        simp only [stack.pop, ht, hlt, if_false, Except.ok.injEq] at hs
        rw [← hs]
        exact wellFormed_of_same h rfl rfl
  | printStack this =>
    simp only [step, stack.printStack] at hs
    cases ht : getObj m this with
    | none => simp [ht] at hs
    | some t =>
      simp only [ht] at hs
      split at hs
      · simp only [Except.ok.injEq] at hs
        rw [← hs]; exact wellFormed_of_same h rfl rfl
      · split at hs
        · simp at hs
        · simp only [Except.ok.injEq] at hs
          rw [← hs]; exact wellFormed_of_same h rfl rfl
  | dtor this =>
    simp only [step] at hs
    cases ht : getObj m this with
    | none => simp [stack.dtor, ht] at hs
    | some t =>
      obtain ⟨buf, ow⟩ := h.1 this t ht
      simp only [stack.dtor, ht, deleteArr, ow.arr, Except.ok.injEq] at hs
      rw [← hs]
      exact wellFormed_remove h this t _ _ ht

/-- Every state a run of the deep-copy variant reaches is well-formed. -/
theorem wellFormed_run (ops : List Op) :
    ∀ (m m1 : Machine), WellFormed m → run m ops = .ok m1 → WellFormed m1 := by
  induction ops with
  | nil =>
    intro m m1 h hr
    simp only [run, Except.ok.injEq] at hr
    rw [← hr]; exact h
  | cons op ops ih =>
    intro m m1 h hr
    simp only [run] at hr
    cases hs : step m op with
    | error e => simp [hs] at hr
    | ok m2 =>
      simp only [hs] at hr
      exact ih m2 m1 (wellFormed_step m m2 op h hs) hr

/-! ## Printing and copy construction -/

/-- The printing loop succeeds on slots inside the array and writes them in
order. -/
theorem printLoop_spec (h : Heap) (p : Nat) (buf : List Int) (hp : h[p]? = some (some buf))
    (count : Nat) :
    ∀ (i : Nat) (out : List String), i + count ≤ buf.length →
      printLoop h p count i out = .ok (out ++ elementsText ((buf.drop i).take count)) := by
  induction count with
  | zero =>
    intro i out _
    simp [printLoop, elementsText]
  | succ n ih =>
    intro i out hle
    have hi : i < buf.length := by omega
    have hr : readAt h p (i : Int) = .ok buf[i] := by
      have : ¬ ((i : Int) < 0) := by omega
      simp [readAt, this, hp, hi]
    simp only [printLoop, hr]
    rw [ih (i + 1) _ (by omega), List.drop_eq_getElem_cons hi]
    simp [elementsText]

/-- What `printStack` does to a stack that owns its array. -/
theorem printStack_eq {m : Machine} {this : Nat} {t : stack} {buf : List Int}
    (h : Owns m this t buf) :
    stack.printStack m this = .ok { m with out := m.out ++
      (if t.TOS = -1 then ["Stack is Empty\n"]
       else ["Stack elements: "] ++ elementsText (buf.take (t.TOS + 1).toNat) ++ ["\n"]) } := by
  have hlen := h.len
  have hhi := h.hi
  have hlo := h.lo
  by_cases he : t.TOS = -1
  · simp [stack.printStack, h.obj, he]
  · simp only [stack.printStack, h.obj, he, if_false]
    rw [printLoop_spec m.heap t.stk buf h.arr (t.TOS + 1).toNat 0 _ (by omega)]
    simp

/-- What the copy constructor `stack(other)` does when `other` owns its array:
the new object has the `size` and `TOS` of `other` and an array of its own whose
slots `0 .. size - 1` are those of `other`. -/
theorem ctor_copy_spec {m : Machine} {b : Nat} {tb : stack} {bufb : List Int}
    (junk : Nat → Int) (hb : Owns m b tb bufb) :
    ∃ buf1, stack.ctor_copy m b junk = .ok (m.objs.length,
        ⟨(m.heap ++ [some ((List.range tb.size.toNat).map junk)]).set m.heap.length (some buf1),
         m.objs ++ [some ⟨tb.size, m.heap.length, tb.TOS⟩], m.stk_Num + 1, m.out⟩) ∧
      buf1 = bufb := by
  have hlen := hb.len
  have hlo := hb.lo
  have hhi := hb.hi
  have hol := heap_lt hb.arr
  have hsz : ¬ tb.size < 0 := by omega
  have hsrc : (m.heap ++ [some ((List.range tb.size.toNat).map junk)])[tb.stk]?
      = some (some bufb) := by
    rw [List.getElem?_append_left hol, hb.arr]
  have hdst : (m.heap ++ [some ((List.range tb.size.toNat).map junk)])[m.heap.length]?
      = some (some ((List.range tb.size.toNat).map junk)) := by
    rw [List.getElem?_append_right (by simp)]; simp
  obtain ⟨buf1, e1, l1, c1, _⟩ := copyLoop_spec m.heap.length tb.stk bufb (by omega)
    tb.size.toNat 0 _ _ hsrc hdst (by omega) (by simp)
  refine ⟨buf1, ?_, ?_⟩
  · simp only [stack.ctor_copy, hb.obj, newArr, hsz, if_false, e1]
  · apply List.ext_getElem?
    intro k
    by_cases hk : k < tb.size.toNat
    · exact c1 k (by omega) (by omega)
    · rw [List.getElem?_eq_none (by rw [l1]; simp; omega),
        List.getElem?_eq_none (by omega)]

/-! ## The whole runs of the three `main` functions -/

set_option maxHeartbeats 2000000 in
/-- The whole run of `main` in `StackV0.1_ByRef`: both arrays are released and
both objects destroyed. -/
theorem main_V01_eval (j1 j2 : Nat → Int) :
    silentRun (main_V01 j1 j2) = .ok ⟨[none, none], [none, none], 0, []⟩ := by
  have range10 : List.range 10 = [0, 1, 2, 3, 4, 5, 6, 7, 8, 9] := by decide
  simp [silentRun, main_V01, main_V01_body, stack.ctor, stack.ctor_size, newArr, pushLoop,
    oneToTwelve, stack.push, cout, getObj, setObj, writeAt, popLoop, stack.pop, readAt,
    printStackObj_ref, printLoop, stack.dtor, deleteArr, range10, Machine.init]

set_option maxHeartbeats 2000000 in
/-- The whole run of `main` in `StackV0.3_OperatorOverloading`: the three arrays
are released and both objects destroyed. -/
theorem main_V03_eval (j1 j2 j3 : Nat → Int) :
    silentRun (main_V03 j1 j2 j3) = .ok ⟨[none, none, none], [none, none], 0, []⟩ := by
  have range10 : List.range 10 = [0, 1, 2, 3, 4, 5, 6, 7, 8, 9] := by decide
  simp [silentRun, main_V03, main_V03_body, stack.ctor, stack.ctor_size, newArr, pushLoop,
    oneToTwelve, stack.push, cout, getObj, setObj, writeAt, popLoop, stack.pop, readAt,
    stack.operator_assign, deleteArr, copyLoop, stack.printStack, printLoop, stack.dtor,
    range10, Machine.init]

/-- What `pop` does to an empty stack. -/
theorem pop_empty_eq {m : Machine} {this : Nat} {t : stack}
    (h : getObj m this = some t) (he : ¬ t.TOS ≥ 0) :
    stack.pop m this = .ok (-1, { m with out := m.out ++ ["Stack is Empty\n"] }) := by
  simp [stack.pop, h, he]

/-- One `push` on a stack with room: the value is stored on top. -/
theorem push_step {m : Machine} {this p : Nat} {size k : Int} {buf : List Int}
    (h : Owns m this ⟨size, p, k⟩ buf) (hroom : k < size - 1) (v : Int) :
    ∃ m1, stack.push m this v = .ok m1 ∧
      Owns m1 this ⟨size, p, k + 1⟩ (buf.set (k + 1).toNat v) ∧ m1.out = m.out :=
  ⟨_, push_eq h hroom v, owns_push h hroom v, rfl⟩

/-- One `pop` on a stack that is not empty: the top element is returned. -/
theorem pop_step {m : Machine} {this p : Nat} {size k : Int} {buf : List Int}
    (h : Owns m this ⟨size, p, k⟩ buf) (hne : 0 ≤ k) :
    ∃ v m1, buf[k.toNat]? = some v ∧ stack.pop m this = .ok (v, m1) ∧
      Owns m1 this ⟨size, p, k - 1⟩ buf ∧ m1.out = m.out := by
  obtain ⟨v, hv, hp⟩ := pop_eq h hne
  exact ⟨v, _, hv, hp, owns_pop h hne, rfl⟩

/-! ## The claims -/

/-- C1 (LIFO law).  For every capacity `c > 0` and every list `vs` of at most `c`
integers: the constructor `stack(c)` succeeds, pushing the values of `vs` in
order onto the new stack succeeds and writes nothing to `std::cout`, and
`length vs` calls of `pop` then return the values of `vs` in reverse order and
leave the stack empty (`TOS = -1`, `size = c`). -/
theorem lifo_law (m : Machine) (junk : Nat → Int) (c : Int) (vs : List Int)
    (hc : 0 < c) (hlen : (vs.length : Int) ≤ c) :
    ∃ this m1 m2 m3, stack.ctor_size m c junk = .ok (this, m1) ∧
      pushAll m1 this vs = .ok m2 ∧
      popN m2 this vs.length = .ok (vs.reverse, m3) ∧
      getObj m3 this = some ⟨c, m.heap.length, -1⟩ ∧
      snapshot m3 this = some [] ∧ m3.out = m.out := by
  have o0 := owns_ctor_size m c junk (by omega)
  obtain ⟨m2, t2, buf2, e2, o2, s2, p2, k2, u2⟩ := pushAll_spec m.objs.length vs _ _ _ o0
  have hl2 := o2.len
  have hlo2 := o2.lo
  have hhi2 := o2.hi
  simp only at s2 p2 u2
  have hk : buf2.take (t2.TOS + 1).toNat = vs := by
    rw [k2]
    simp only [show ((-1 : Int) + 1).toNat = 0 from rfl, List.take_zero, List.nil_append]
    exact List.take_of_length_le (by omega)
  have htos : t2.TOS + 1 = (vs.length : Int) := by
    have := congrArg List.length hk
    simp only [List.length_take] at this
    omega
  obtain ⟨m3, e3, o3, u3⟩ := popN_spec m.objs.length vs.length _ _ _ o2 htos
  refine ⟨m.objs.length, _, m2, m3, ctor_size_eq m c junk (by omega), e2, ?_, ?_, ?_, ?_⟩
  · rw [e3]
    have : (t2.TOS + 1).toNat = vs.length := by omega
    rw [← this, hk]
  · rw [o3.obj, s2, p2]
  · rw [snapshot_of_owns o3]; rfl
  · rw [u3, u2 (by omega)]

/-- Witness for C1: capacity 3 and the values 1, 2, 3. -/
theorem lifo_law_witness :
    (0 : Int) < 3 ∧ ((([1, 2, 3] : List Int).length : Int) ≤ 3) ∧
    ∃ this m1 m2 m3, stack.ctor_size Machine.init 3 (fun _ => 0) = .ok (this, m1) ∧
      pushAll m1 this [1, 2, 3] = .ok m2 ∧
      popN m2 this ([1, 2, 3] : List Int).length = .ok (([1, 2, 3] : List Int).reverse, m3) ∧
      getObj m3 this = some ⟨3, Machine.init.heap.length, -1⟩ ∧
      snapshot m3 this = some [] ∧ m3.out = Machine.init.out :=
  ⟨by decide, by decide, lifo_law Machine.init (fun _ => 0) 3 [1, 2, 3] (by decide) (by decide)⟩

/-- C2.  For every stack that is full (`TOS = size - 1`) and every integer `v`,
`push(v)` takes the branch that writes "Stack is Full" and changes nothing
else: the data members of the stack, the object table, the free store and
hence the stored elements are the same. -/
theorem push_full_reports_and_keeps_state (m : Machine) (this : Nat) (t : stack) (v : Int)
    (h : getObj m this = some t) (hfull : t.TOS = t.size - 1) :
    ∃ m1, stack.push m this v = .ok m1 ∧ m1.out = m.out ++ ["Stack is Full\n"] ∧
      getObj m1 this = some t ∧ m1.objs = m.objs ∧ m1.heap = m.heap ∧
      snapshot m1 this = snapshot m this ∧ m1.stk_Num = m.stk_Num := by
  refine ⟨_, push_full_eq h (by omega) v, rfl, ?_, rfl, rfl, ?_, rfl⟩
  · simpa [getObj] using h
  · simp [snapshot, getObj]

/-- Witness for C2: a full stack of capacity 2. -/
theorem push_full_reports_and_keeps_state_witness :
    getObj ⟨[some [7, 8]], [some ⟨2, 0, 1⟩], 1, []⟩ 0 = some ⟨2, 0, 1⟩ ∧
    ∃ m1, stack.push ⟨[some [7, 8]], [some ⟨2, 0, 1⟩], 1, []⟩ 0 9 = .ok m1 ∧
      m1.out = [] ++ ["Stack is Full\n"] ∧
      getObj m1 0 = some ⟨2, 0, 1⟩ ∧ m1.objs = [some ⟨2, 0, 1⟩] ∧ m1.heap = [some [7, 8]] ∧
      snapshot m1 0 = snapshot ⟨[some [7, 8]], [some ⟨2, 0, 1⟩], 1, []⟩ 0 ∧ m1.stk_Num = 1 :=
  ⟨rfl, push_full_reports_and_keeps_state ⟨[some [7, 8]], [some ⟨2, 0, 1⟩], 1, []⟩ 0 ⟨2, 0, 1⟩ 9
    rfl (by decide)⟩

/-- C3.  For every empty stack (`TOS = -1`), `pop()` takes the branch that writes
"Stack is Empty" (and returns the sentinel `-1`), leaving the data members, the
object table and the free store unchanged.  For every stack that is not empty
and whose array `buf` holds slot `TOS`, `pop()` returns the element at index
`TOS` and decrements `TOS` by exactly one; `size`, the array, the elements
below, the console text and every other object are unchanged. -/
theorem pop_empty_and_nonempty (m : Machine) (this : Nat) (t : stack)
    (h : getObj m this = some t) :
    (t.TOS = -1 →
      ∃ m1, stack.pop m this = .ok (-1, m1) ∧ m1.out = m.out ++ ["Stack is Empty\n"] ∧
        getObj m1 this = some t ∧ m1.objs = m.objs ∧ m1.heap = m.heap) ∧
    (∀ buf : List Int, 0 ≤ t.TOS → m.heap[t.stk]? = some (some buf) → t.TOS < buf.length →
      ∃ v m1, buf[t.TOS.toNat]? = some v ∧ stack.pop m this = .ok (v, m1) ∧
        getObj m1 this = some ⟨t.size, t.stk, t.TOS - 1⟩ ∧
        m1.heap = m.heap ∧ m1.out = m.out ∧
        snapshot m1 this = some (buf.take t.TOS.toNat) ∧
        ∀ j, j ≠ this → getObj m1 j = getObj m j) := by
  constructor
  · intro he
    refine ⟨{ m with out := m.out ++ ["Stack is Empty\n"] }, ?_, rfl, ?_, rfl, rfl⟩
    · simp [stack.pop, h, he]
    · simpa [getObj] using h
  · intro buf hne harr hlt
    have hl := getObj_lt h
    have h4 : t.TOS.toNat < buf.length := by omega
    have h3 : ¬ (t.TOS < 0) := by omega
    have hobj : getObj (setObj m this ⟨t.size, t.stk, t.TOS - 1⟩) this
        = some ⟨t.size, t.stk, t.TOS - 1⟩ := getObj_setObj_same _ hl
    refine ⟨buf[t.TOS.toNat], setObj m this ⟨t.size, t.stk, t.TOS - 1⟩, by simp [h4], ?_,
      hobj, rfl, rfl, ?_, ?_⟩
    · simp [stack.pop, h, hne, readAt, harr, h3, h4]
    · have e : (t.TOS - 1 + 1).toNat = t.TOS.toNat := by omega
      simp only [snapshot, hobj]
      simp only [setObj, harr, e]
    · intro j hj
      exact getObj_setObj_ne _ (Ne.symm hj)

/-- Witness for C3: an empty stack and a stack holding 7, 8. -/
theorem pop_empty_and_nonempty_witness :
    (∃ m1, stack.pop ⟨[some [7, 8]], [some ⟨2, 0, -1⟩], 1, []⟩ 0 = .ok (-1, m1) ∧
        m1.out = [] ++ ["Stack is Empty\n"] ∧
        getObj m1 0 = some ⟨2, 0, -1⟩ ∧ m1.objs = [some ⟨2, 0, -1⟩] ∧
        m1.heap = [some [7, 8]]) ∧
    (∃ v m1, ([7, 8] : List Int)[(1 : Int).toNat]? = some v ∧
        stack.pop ⟨[some [7, 8]], [some ⟨2, 0, 1⟩], 1, []⟩ 0 = .ok (v, m1) ∧
        getObj m1 0 = some ⟨2, 0, 1 - 1⟩ ∧
        m1.heap = [some [7, 8]] ∧ m1.out = [] ∧
        snapshot m1 0 = some (([7, 8] : List Int).take (1 : Int).toNat) ∧
        ∀ j, j ≠ 0 → getObj m1 j = getObj ⟨[some [7, 8]], [some ⟨2, 0, 1⟩], 1, []⟩ j) :=
  ⟨(pop_empty_and_nonempty ⟨[some [7, 8]], [some ⟨2, 0, -1⟩], 1, []⟩ 0 ⟨2, 0, -1⟩ rfl).1 rfl,
   (pop_empty_and_nonempty ⟨[some [7, 8]], [some ⟨2, 0, 1⟩], 1, []⟩ 0 ⟨2, 0, 1⟩ rfl).2
     [7, 8] (by decide) rfl (by decide)⟩

/-- C4.  Copy assignment of the deep-copy variant.  In a well-formed state (every
live stack satisfies the invariant and owns its own array) let `a` and `b` be
different live stacks.  Then `a = b` succeeds; afterwards the stored elements
of `a` are the stored elements `xs` that `b` had, `a` has the `size` and `TOS`
of `b`, `b` has the data members and stored elements it had, the two point to
different arrays and the state is again well-formed; and every later sequence
of `push` and `pop` calls on one of the two succeeds and leaves the data
members (so `TOS`) and the stored elements of the other unchanged. -/
theorem assign_deep_copy (m : Machine) (a b : Nat) (ta tb : stack) (junk : Nat → Int)
    (hwf : WellFormed m) (hab : a ≠ b) (ha : getObj m a = some ta)
    (hb : getObj m b = some tb) :
    ∃ m1 ta1 xs, stack.operator_assign m a b junk = .ok m1 ∧
      snapshot m b = some xs ∧
      getObj m1 a = some ta1 ∧ ta1.size = tb.size ∧ ta1.TOS = tb.TOS ∧
      snapshot m1 a = some xs ∧
      getObj m1 b = some tb ∧ snapshot m1 b = some xs ∧
      ta1.stk ≠ tb.stk ∧ WellFormed m1 ∧
      (∀ ops, ∃ m2, mutate m1 a ops = .ok m2 ∧ getObj m2 b = some tb ∧
        snapshot m2 b = some xs) ∧
      (∀ ops, ∃ m2, mutate m1 b ops = .ok m2 ∧ getObj m2 a = some ta1 ∧
        snapshot m2 a = some xs) := by
  obtain ⟨bufa, oa0⟩ := hwf.1 a ta ha
  obtain ⟨bufb, ob0⟩ := hwf.1 b tb hb
  have hsep : ta.stk ≠ tb.stk := fun e => hab (hwf.2 a b ta tb ha hb e)
  obtain ⟨m1, buf1, e1, oa, ob, hk, _⟩ := assign_spec junk hab oa0 ob0 hsep
  have hbl := heap_lt ob0.arr
  have hne : (⟨tb.size, m.heap.length, tb.TOS⟩ : stack).stk ≠ tb.stk := by
    simp only; omega
  have sb := snapshot_of_owns ob0
  have sa1 := snapshot_of_owns oa
  have sb1 := snapshot_of_owns ob
  simp only at sa1
  have hwf1 : WellFormed m1 := wellFormed_step m m1 (Op.assign a b junk) hwf e1
  refine ⟨m1, ⟨tb.size, m.heap.length, tb.TOS⟩, bufb.take (tb.TOS + 1).toNat, e1, sb, oa.obj,
    rfl, rfl, ?_, ob.obj, sb1, hne, hwf1, ?_, ?_⟩
  · rw [sa1, hk]
  · intro ops
    obtain ⟨m2, _, _, e2, _, _, ob2⟩ := mutate_frame a b hab tb bufb ops m1 _ buf1 oa ob hne
    exact ⟨m2, e2, ob2.obj, snapshot_of_owns ob2⟩
  · intro ops
    obtain ⟨m2, _, _, e2, _, _, oa2⟩ :=
      mutate_frame b a (Ne.symm hab) _ buf1 ops m1 tb bufb ob oa (Ne.symm hne)
    exact ⟨m2, e2, oa2.obj, by rw [snapshot_of_owns oa2, hk]⟩

/-- Witness for C4: in the state reached by `stack(2)`, `stack(3)`, `push(1)` on
the first and `push(5)`, `push(6)` on the second, the first stack is assigned
the second. -/
theorem assign_deep_copy_witness :
    (WellFormed twoStacks ∧ (0 : Nat) ≠ 1 ∧ getObj twoStacks 0 = some ⟨2, 0, 0⟩ ∧
      getObj twoStacks 1 = some ⟨3, 1, 1⟩) ∧
    ∃ m1 ta1 xs, stack.operator_assign twoStacks 0 1 (fun _ => 0) = .ok m1 ∧
      snapshot twoStacks 1 = some xs ∧
      getObj m1 0 = some ta1 ∧ ta1.size = (⟨3, 1, 1⟩ : stack).size ∧
      ta1.TOS = (⟨3, 1, 1⟩ : stack).TOS ∧
      snapshot m1 0 = some xs ∧
      getObj m1 1 = some ⟨3, 1, 1⟩ ∧ snapshot m1 1 = some xs ∧
      ta1.stk ≠ (⟨3, 1, 1⟩ : stack).stk ∧ WellFormed m1 ∧
      (∀ ops, ∃ m2, mutate m1 0 ops = .ok m2 ∧ getObj m2 1 = some ⟨3, 1, 1⟩ ∧
        snapshot m2 1 = some xs) ∧
      (∀ ops, ∃ m2, mutate m1 1 ops = .ok m2 ∧ getObj m2 0 = some ta1 ∧
        snapshot m2 0 = some xs) :=
  ⟨⟨wellFormed_run twoStacksOps Machine.init twoStacks wellFormed_init rfl, by decide, rfl, rfl⟩,
    assign_deep_copy twoStacks 0 1 ⟨2, 0, 0⟩ ⟨3, 1, 1⟩ (fun _ => 0)
      (wellFormed_run twoStacksOps Machine.init twoStacks wellFormed_init rfl)
      (by decide) rfl rfl⟩

/-- C7.  Pushes beyond capacity are dropped without overwriting.  For every
capacity `c > 0` and every list `vs`: `stack(c)` and the pushes of `vs` in order
succeed, and the stored elements are then the first `min (length vs) c` values
of `vs`.  In `main` of `StackV0.3_OperatorOverloading` (1..12 pushed onto a
stack of capacity 10, five pops, `s2 = s1`) both `s1` and `s2` then hold
1, 2, 3, 4, 5, whatever the indeterminate content of new arrays is. -/
theorem push_beyond_capacity_dropped (m : Machine) (junk : Nat → Int) (c : Int)
    (vs : List Int) (hc : 0 < c) :
    (∃ this m1 m2, stack.ctor_size m c junk = .ok (this, m1) ∧
      pushAll m1 this vs = .ok m2 ∧
      snapshot m2 this = some (vs.take (min vs.length c.toNat))) ∧
    (∀ j1 j2 j3 : Nat → Int, ∃ s1 s2 mm, main_V03_body j1 j2 j3 = .ok (s1, s2, mm) ∧
      s1 ≠ s2 ∧ snapshot mm s1 = some [1, 2, 3, 4, 5] ∧
      snapshot mm s2 = some [1, 2, 3, 4, 5]) := by
  constructor
  · have o0 := owns_ctor_size m c junk (by omega)
    obtain ⟨m2, t2, buf2, e2, o2, _, _, k2, _⟩ := pushAll_spec m.objs.length vs _ _ _ o0
    refine ⟨m.objs.length, _, m2, ctor_size_eq m c junk (by omega), e2, ?_⟩
    rw [snapshot_of_owns o2, k2]
    simp only [show ((-1 : Int) + 1).toNat = 0 from rfl, List.take_zero, List.nil_append]
    congr 1
    rw [List.take_eq_take]
    omega
  · intro j1 j2 j3
    obtain ⟨mm, e, hh, ho, _⟩ := silent_ok (main_V03_body_eval j1 j2 j3)
    refine ⟨0, 1, mm, e, by decide, ?_, ?_⟩
    · rw [snapshot_congr hh ho]; rfl
    · rw [snapshot_congr hh ho]; rfl

/-- Witness for C7: 1, 2, 3 pushed onto capacity 2. -/
theorem push_beyond_capacity_dropped_witness :
    (0 : Int) < 2 ∧
    (∃ this m1 m2, stack.ctor_size Machine.init 2 (fun _ => 0) = .ok (this, m1) ∧
      pushAll m1 this [1, 2, 3] = .ok m2 ∧
      snapshot m2 this
        = some (([1, 2, 3] : List Int).take (min ([1, 2, 3] : List Int).length (2 : Int).toNat))) :=
  ⟨by decide,
    (push_beyond_capacity_dropped Machine.init (fun _ => 0) 2 [1, 2, 3] (by decide)).1⟩

/-- C5 (stack invariant).  In every state reached from the start of the program
by any sequence of constructions (default, with a size, by copy), copy
assignments, `push`, `pop`, `printStack` and destructions, every live stack has
`0 ≤ TOS + 1 ≤ size`, that is `TOS` in `[-1, size - 1]`. -/
theorem tos_in_range_reachable (ops : List Op) (m : Machine)
    (hr : run Machine.init ops = .ok m) (i : Nat) (t : stack) (hi : getObj m i = some t) :
    (0 ≤ t.TOS + 1 ∧ t.TOS + 1 ≤ t.size) ∧ (-1 ≤ t.TOS ∧ t.TOS ≤ t.size - 1) := by
  have h0 : StackInv Machine.init := by
    intro i t h
    simp [getObj, Machine.init] at h
  have := stackInv_run ops Machine.init m h0 hr i t hi
  exact ⟨this, by omega, by omega⟩

/-- Witness for C5: two constructions, two pushes, a pop and a copy assignment. -/
theorem tos_in_range_reachable_witness :
    run Machine.init [Op.ctor (fun _ => 0), Op.ctor_size 2 (fun _ => 0), Op.push 0 1,
        Op.push 0 2, Op.pop 0, Op.assign 1 0 (fun _ => 0)]
      = .ok ⟨[some [1, 2, 0, 0, 0, 0, 0, 0, 0, 0], none, some [1, 0, 0, 0, 0, 0, 0, 0, 0, 0]],
          [some ⟨10, 0, 0⟩, some ⟨10, 2, 0⟩], 2, []⟩ ∧
    getObj ⟨[some [1, 2, 0, 0, 0, 0, 0, 0, 0, 0], none, some [1, 0, 0, 0, 0, 0, 0, 0, 0, 0]],
          [some ⟨10, 0, 0⟩, some ⟨10, 2, 0⟩], 2, []⟩ 1 = some ⟨10, 2, 0⟩ ∧
    ((0 ≤ (⟨10, 2, 0⟩ : stack).TOS + 1 ∧ (⟨10, 2, 0⟩ : stack).TOS + 1 ≤ (⟨10, 2, 0⟩ : stack).size) ∧
      (-1 ≤ (⟨10, 2, 0⟩ : stack).TOS ∧
        (⟨10, 2, 0⟩ : stack).TOS ≤ (⟨10, 2, 0⟩ : stack).size - 1)) :=
  ⟨rfl, rfl, tos_in_range_reachable
    [Op.ctor (fun _ => 0), Op.ctor_size 2 (fun _ => 0), Op.push 0 1, Op.push 0 2, Op.pop 0,
      Op.assign 1 0 (fun _ => 0)]
    ⟨[some [1, 2, 0, 0, 0, 0, 0, 0, 0, 0], none, some [1, 0, 0, 0, 0, 0, 0, 0, 0, 0]],
      [some ⟨10, 0, 0⟩, some ⟨10, 2, 0⟩], 2, []⟩ rfl 1 ⟨10, 2, 0⟩ rfl⟩

/-- C6, evaluated on `main` of `StackV0.0_Shallow`.  Before the call
`printStackObj(s2)` two stacks are alive and `getSTKnum()` is 2.  Inside the
call, once the parameter is copy-initialised, three stacks are alive and
`getSTKnum()` is still 2.  After the call two stacks are alive and
`getSTKnum()` is 1. -/
theorem getSTKnum_shallow_by_value (j1 j2 : Nat → Int) :
    ∃ s1 s2 m, main_V00_before_call j1 j2 = .ok (s1, s2, m) ∧
      liveCount m = 2 ∧ stack.getSTKnum m = 2 ∧
      (∃ p m1, stack.implicit_copy m s2 = .ok (p, m1) ∧
        liveCount m1 = 3 ∧ stack.getSTKnum m1 = 2) ∧
      (∃ m2, printStackObj_val m s2 = .ok m2 ∧
        liveCount m2 = 2 ∧ stack.getSTKnum m2 = 1) := by
  obtain ⟨m, e, hh, ho, hn⟩ := silent_ok (main_V00_before_call_eval j1 j2)
  obtain ⟨heap, objs, n, out⟩ := m
  simp only at hh ho hn
  subst hh ho hn
  refine ⟨0, 1, _, e, rfl, rfl, ⟨_, _, rfl, rfl, rfl⟩, ?_⟩
  simp [printStackObj_val, stack.implicit_copy, printStackObj_ref, printLoop, readAt,
    stack.dtor, deleteArr, getObj, liveCount, stack.getSTKnum]

/-- C8.  Self-assignment is a no-op: `s = s` with the copy assignment of the
deep-copy variant succeeds and returns the state it was called in, so `TOS`,
`size`, the array and every stored element of `s` are unchanged. -/
theorem self_assign_noop (m : Machine) (this : Nat) (junk : Nat → Int) :
    ∃ m1, stack.operator_assign m this this junk = .ok m1 ∧ m1 = m ∧
      getObj m1 this = getObj m this ∧ snapshot m1 this = snapshot m this ∧
      m1.heap = m.heap := by
  refine ⟨m, ?_, rfl, rfl, rfl, rfl⟩
  simp [stack.operator_assign]

/-- C9, evaluated.  On a new stack of capacity 1, `pop()` returns `-1` and writes
"Stack is Empty".  After `push(-1)` the stack holds the element `-1`, and
`pop()` on it returns `-1` as well.  The loop of `main`, which tests
`value != -1`, then pops the stored `-1` without announcing a popped value. -/
theorem pop_sentinel_conflated (junk : Nat → Int) :
    stack.ctor_size Machine.init 1 junk
      = .ok (0, ⟨[some [junk 0]], [some ⟨1, 0, -1⟩], 1, []⟩) ∧
    stack.pop ⟨[some [junk 0]], [some ⟨1, 0, -1⟩], 1, []⟩ 0
      = .ok (-1, ⟨[some [junk 0]], [some ⟨1, 0, -1⟩], 1, ["Stack is Empty\n"]⟩) ∧
    stack.push ⟨[some [junk 0]], [some ⟨1, 0, -1⟩], 1, []⟩ 0 (-1)
      = .ok ⟨[some [-1]], [some ⟨1, 0, 0⟩], 1, []⟩ ∧
    snapshot ⟨[some [-1]], [some ⟨1, 0, 0⟩], 1, []⟩ 0 = some [-1] ∧
    stack.pop ⟨[some [-1]], [some ⟨1, 0, 0⟩], 1, []⟩ 0
      = .ok (-1, ⟨[some [-1]], [some ⟨1, 0, -1⟩], 1, []⟩) ∧
    popLoop 0 1 ⟨[some [-1]], [some ⟨1, 0, 0⟩], 1, []⟩
      = .ok ⟨[some [-1]], [some ⟨1, 0, -1⟩], 1, []⟩ :=
  ⟨rfl, rfl, rfl, rfl, rfl, rfl⟩

/-- C10, counterexample.  `stack(0)` succeeds: it yields a live stack with
`size = 0` and `TOS = -1` that is counted by `getSTKnum()`, on which `push`
reports "Stack is Full", `pop` reports "Stack is Empty", and which the
destructor releases. -/
theorem ctor_size_zero_yields_stack :
    (0 : Int) ≤ 0 ∧
    stack.ctor_size Machine.init 0 (fun _ => 0)
      = .ok (0, ⟨[some []], [some ⟨0, 0, -1⟩], 1, []⟩) ∧
    getObj ⟨[some []], [some ⟨0, 0, -1⟩], 1, []⟩ 0 = some ⟨0, 0, -1⟩ ∧
    stack.getSTKnum ⟨[some []], [some ⟨0, 0, -1⟩], 1, []⟩ = 1 ∧
    stack.push ⟨[some []], [some ⟨0, 0, -1⟩], 1, []⟩ 0 5
      = .ok ⟨[some []], [some ⟨0, 0, -1⟩], 1, ["Stack is Full\n"]⟩ ∧
    stack.pop ⟨[some []], [some ⟨0, 0, -1⟩], 1, []⟩ 0
      = .ok (-1, ⟨[some []], [some ⟨0, 0, -1⟩], 1, ["Stack is Empty\n"]⟩) ∧
    stack.dtor ⟨[some []], [some ⟨0, 0, -1⟩], 1, []⟩ 0 = .ok ⟨[none], [none], 0, []⟩ :=
  ⟨by decide, rfl, rfl, rfl, rfl, rfl, rfl⟩

/-- C10, amended.  For a requested capacity `n ≤ 0`: if `n < 0` the constructor
yields no stack, because `new int[n]` throws; if `n = 0` the constructor
succeeds and yields an empty stack of capacity 0 (`size = 0`, `TOS = -1`,
`stk_Num` incremented), on which every `push` reports "Stack is Full" and
changes nothing else. -/
theorem ctor_size_nonpositive (m : Machine) (junk : Nat → Int) (n : Int) (hn : n ≤ 0) :
    (n < 0 → stack.ctor_size m n junk = .error .bad_array_new_length) ∧
    (n = 0 →
      stack.ctor_size m n junk = .ok (m.objs.length,
        ⟨m.heap ++ [some []], m.objs ++ [some ⟨0, m.heap.length, -1⟩], m.stk_Num + 1, m.out⟩) ∧
      ∀ v, stack.push
          ⟨m.heap ++ [some []], m.objs ++ [some ⟨0, m.heap.length, -1⟩], m.stk_Num + 1, m.out⟩
          m.objs.length v
        = .ok ⟨m.heap ++ [some []], m.objs ++ [some ⟨0, m.heap.length, -1⟩], m.stk_Num + 1,
            m.out ++ ["Stack is Full\n"]⟩) := by
  constructor
  · intro hneg
    simp [stack.ctor_size, newArr, hneg]
  · intro h0
    subst h0
    refine ⟨?_, ?_⟩
    · rw [ctor_size_eq m 0 junk (by decide)]
      rfl
    · intro v
      have hobj : getObj ⟨m.heap ++ [some []], m.objs ++ [some ⟨0, m.heap.length, -1⟩],
          m.stk_Num + 1, m.out⟩ m.objs.length = some ⟨0, m.heap.length, -1⟩ := by
        rw [getObj_eq_some]; simp
      rw [push_full_eq hobj (by simp) v]

/-- Witness for the amended C10: the capacities `-1` and `0`. -/
theorem ctor_size_nonpositive_witness :
    ((-1 : Int) ≤ 0 ∧ (0 : Int) ≤ 0) ∧
    stack.ctor_size Machine.init (-1) (fun _ => 0) = .error .bad_array_new_length ∧
    (stack.ctor_size Machine.init 0 (fun _ => 0) = .ok (Machine.init.objs.length,
        ⟨Machine.init.heap ++ [some []],
          Machine.init.objs ++ [some ⟨0, Machine.init.heap.length, -1⟩],
          Machine.init.stk_Num + 1, Machine.init.out⟩) ∧
      ∀ v, stack.push
          ⟨Machine.init.heap ++ [some []],
            Machine.init.objs ++ [some ⟨0, Machine.init.heap.length, -1⟩],
            Machine.init.stk_Num + 1, Machine.init.out⟩
          Machine.init.objs.length v
        = .ok ⟨Machine.init.heap ++ [some []],
            Machine.init.objs ++ [some ⟨0, Machine.init.heap.length, -1⟩],
            Machine.init.stk_Num + 1, Machine.init.out ++ ["Stack is Full\n"]⟩) :=
  ⟨⟨by decide, by decide⟩,
    (ctor_size_nonpositive Machine.init (fun _ => 0) (-1) (by decide)).1 (by decide),
    (ctor_size_nonpositive Machine.init (fun _ => 0) 0 (by decide)).2 rfl⟩

/-- C11, counterexample.  In the state reached by `twoStacksOps` the first stack
was constructed with `size = 2`; after the copy assignment from the second
stack, constructed with `size = 3`, its `size` is 3. -/
theorem assign_changes_size :
    run Machine.init twoStacksOps = .ok twoStacks ∧
    getObj twoStacks 0 = some ⟨2, 0, 0⟩ ∧
    stack.operator_assign twoStacks 0 1 (fun _ => 0)
      = .ok ⟨[none, some [5, 6, 0], some [5, 6, 0]], [some ⟨3, 2, 1⟩, some ⟨3, 1, 1⟩], 2, []⟩ ∧
    getObj ⟨[none, some [5, 6, 0], some [5, 6, 0]], [some ⟨3, 2, 1⟩, some ⟨3, 1, 1⟩], 2, []⟩ 0
      = some ⟨3, 2, 1⟩ ∧
    (⟨3, 2, 1⟩ : stack).size ≠ (⟨2, 0, 0⟩ : stack).size :=
  ⟨rfl, rfl, rfl, rfl, by decide⟩

/-- C11, amended.  In a well-formed state, for every live stack: `push`, `pop`
and `printStack` succeed and leave its `size` as it was, and the copy
assignment from a live stack `s` succeeds and leaves it with the `size` of
`s`. -/
theorem size_kept_except_by_assign (m : Machine) (this : Nat) (t : stack)
    (hwf : WellFormed m) (ht : getObj m this = some t) :
    (∀ v, ∃ m1 t1, stack.push m this v = .ok m1 ∧ getObj m1 this = some t1 ∧
      t1.size = t.size) ∧
    (∃ v m1 t1, stack.pop m this = .ok (v, m1) ∧ getObj m1 this = some t1 ∧
      t1.size = t.size) ∧
    (∃ m1, stack.printStack m this = .ok m1 ∧ getObj m1 this = some t) ∧
    (∀ s o junk, getObj m s = some o →
      ∃ m1 t1, stack.operator_assign m this s junk = .ok m1 ∧ getObj m1 this = some t1 ∧
        t1.size = o.size) := by
  obtain ⟨buf, ow⟩ := hwf.1 this t ht
  refine ⟨?_, ?_, ?_, ?_⟩
  · intro v
    by_cases hroom : t.TOS < t.size - 1
    · exact ⟨_, _, push_eq ow hroom v, (owns_push ow hroom v).obj, rfl⟩
    · exact ⟨_, t, push_full_eq ht hroom v, (owns_out ow _).obj, rfl⟩
  · by_cases hne : 0 ≤ t.TOS
    · obtain ⟨v, _, hp⟩ := pop_eq ow hne
      exact ⟨v, _, _, hp, (owns_pop ow hne).obj, rfl⟩
    · have hlt : ¬ t.TOS ≥ 0 := by omega
      refine ⟨-1, { m with out := m.out ++ ["Stack is Empty\n"] }, t, ?_,
        (owns_out ow _).obj, rfl⟩
      simp [stack.pop, ht, hlt]
  · exact ⟨_, printStack_eq ow, (owns_out ow _).obj⟩
  · intro s o junk ho
    by_cases he : this = s
    · subst he
      rw [ht] at ho
      simp only [Option.some.injEq] at ho
      subst ho
      exact ⟨m, t, by simp [stack.operator_assign], ht, rfl⟩
    · obtain ⟨bo, owo⟩ := hwf.1 s o ho
      have hsep : t.stk ≠ o.stk := fun e => he (hwf.2 this s t o ht ho e)
      obtain ⟨m1, buf1, e1, oa, _⟩ := assign_spec junk he ow owo hsep
      exact ⟨m1, _, e1, oa.obj, rfl⟩

/-- Witness for the amended C11: the first of the two stacks of `twoStacks`, and
the assignment from the second. -/
theorem size_kept_except_by_assign_witness :
    (WellFormed twoStacks ∧ getObj twoStacks 0 = some ⟨2, 0, 0⟩ ∧
      getObj twoStacks 1 = some ⟨3, 1, 1⟩) ∧
    (∀ v, ∃ m1 t1, stack.push twoStacks 0 v = .ok m1 ∧ getObj m1 0 = some t1 ∧
      t1.size = (⟨2, 0, 0⟩ : stack).size) ∧
    (∃ v m1 t1, stack.pop twoStacks 0 = .ok (v, m1) ∧ getObj m1 0 = some t1 ∧
      t1.size = (⟨2, 0, 0⟩ : stack).size) ∧
    (∃ m1, stack.printStack twoStacks 0 = .ok m1 ∧ getObj m1 0 = some ⟨2, 0, 0⟩) ∧
    (∃ m1 t1, stack.operator_assign twoStacks 0 1 (fun _ => 0) = .ok m1 ∧
      getObj m1 0 = some t1 ∧ t1.size = (⟨3, 1, 1⟩ : stack).size) :=
  (fun H => ⟨⟨wellFormed_run twoStacksOps Machine.init twoStacks wellFormed_init rfl, rfl, rfl⟩,
      H.1, H.2.1, H.2.2.1, H.2.2.2 1 ⟨3, 1, 1⟩ (fun _ => 0) rfl⟩)
    (size_kept_except_by_assign twoStacks 0 ⟨2, 0, 0⟩
      (wellFormed_run twoStacksOps Machine.init twoStacks wellFormed_init rfl) rfl)

/-- C12, evaluated on `main` of `StackV0.0_Shallow`.  After `s2 = s1` the two
live stacks `s1` and `s2` point to the same array.  A `pop` followed by
`push(99)` on `s1` then changes the stored elements seen through `s2` from
1, 2, 3, 4, 5 to 1, 2, 3, 4, 99.  The parameter of `printStackObj(s2)` is a
third live stack that points to the same array. -/
theorem shallow_copies_share_buffer (j1 j2 : Nat → Int) :
    ∃ s1 s2 m t1 t2, main_V00_before_call j1 j2 = .ok (s1, s2, m) ∧ s1 ≠ s2 ∧
      getObj m s1 = some t1 ∧ getObj m s2 = some t2 ∧ t1.stk = t2.stk ∧
      snapshot m s2 = some [1, 2, 3, 4, 5] ∧
      (∃ v m1 m2, stack.pop m s1 = .ok (v, m1) ∧ snapshot m1 s2 = some [1, 2, 3, 4, 5] ∧
        stack.push m1 s1 99 = .ok m2 ∧ snapshot m2 s2 = some [1, 2, 3, 4, 99]) ∧
      (∃ p m1 tp, stack.implicit_copy m s2 = .ok (p, m1) ∧ p ≠ s1 ∧ p ≠ s2 ∧
        getObj m1 p = some tp ∧ tp.stk = t1.stk ∧ getObj m1 s1 = some t1 ∧
        getObj m1 s2 = some t2) := by
  obtain ⟨m, e, hh, ho, hn⟩ := silent_ok (main_V00_before_call_eval j1 j2)
  obtain ⟨heap, objs, n, out⟩ := m
  simp only at hh ho hn
  subst hh ho hn
  refine ⟨0, 1, _, ⟨10, 0, 4⟩, ⟨10, 0, 4⟩, e, by decide, rfl, rfl, rfl, rfl, ?_, ?_⟩
  · refine ⟨5, ⟨_, [some ⟨10, 0, 3⟩, some ⟨10, 0, 4⟩], 2, out⟩, 
      ⟨[some [1, 2, 3, 4, 99, 6, 7, 8, 9, 10],
        some [j2 0, j2 1, j2 2, j2 3, j2 4, j2 5, j2 6, j2 7, j2 8, j2 9]],
       [some ⟨10, 0, 4⟩, some ⟨10, 0, 4⟩], 2, out⟩, rfl, rfl, rfl, rfl⟩
  · exact ⟨2, _, ⟨10, 0, 4⟩, rfl, by decide, by decide, rfl, rfl, rfl, rfl⟩

/-- C16, evaluated on the three `main` functions.  In `StackV0.0_Shallow` the
destructor of the parameter of `printStackObj(s2)` releases the array of `s1`,
to which `s1` and `s2` still point, while the array allocated for `s2` is
still allocated and no stack points to it; the destructor of `s2` at
`return 0;` then releases the released array again, so the run has undefined
behaviour.  In `StackV0.1_ByRef` and `StackV0.3_OperatorOverloading` the run
ends with every array released and every object destroyed. -/
theorem shallow_main_releases_twice (j1 j2 j3 : Nat → Int) :
    main_V00 j1 j2 = .error .undefined ∧
    (∃ s1 s2 m m2, main_V00_before_call j1 j2 = .ok (s1, s2, m) ∧
      printStackObj_val m s2 = .ok m2 ∧
      m2.heap = [none, some [j2 0, j2 1, j2 2, j2 3, j2 4, j2 5, j2 6, j2 7, j2 8, j2 9]] ∧
      m2.objs = [some ⟨10, 0, 4⟩, some ⟨10, 0, 4⟩, none] ∧
      getObj m2 s1 = some ⟨10, 0, 4⟩ ∧ getObj m2 s2 = some ⟨10, 0, 4⟩ ∧
      stack.dtor m2 s2 = .error .undefined) ∧
    silentRun (main_V01 j1 j2) = .ok ⟨[none, none], [none, none], 0, []⟩ ∧
    silentRun (main_V03 j1 j2 j3) = .ok ⟨[none, none, none], [none, none], 0, []⟩ := by
  obtain ⟨m, e, hh, ho, hn⟩ := silent_ok (main_V00_before_call_eval j1 j2)
  obtain ⟨heap, objs, n, out⟩ := m
  simp only at hh ho hn
  subst hh ho hn
  have hp : printStackObj_val ⟨[some [1, 2, 3, 4, 5, 6, 7, 8, 9, 10],
        some [j2 0, j2 1, j2 2, j2 3, j2 4, j2 5, j2 6, j2 7, j2 8, j2 9]],
       [some ⟨10, 0, 4⟩, some ⟨10, 0, 4⟩], 2, out⟩ 1
      = .ok ⟨[none, some [j2 0, j2 1, j2 2, j2 3, j2 4, j2 5, j2 6, j2 7, j2 8, j2 9]],
          [some ⟨10, 0, 4⟩, some ⟨10, 0, 4⟩, none], 1,
          out ++ ["Stack elements: ", "1", " ", "2", " ", "3", " ", "4", " ", "5", " ", "\n"]⟩ := by
    simp [printStackObj_val, stack.implicit_copy, printStackObj_ref, printLoop, readAt,
      stack.dtor, deleteArr, getObj]
    decide
  refine ⟨?_, ⟨0, 1, _, _, e, hp, rfl, rfl, rfl, rfl, rfl⟩, main_V01_eval j1 j2,
    main_V03_eval j1 j2 j3⟩
  simp only [main_V00, e, hp]
  rfl

/-- C13.  Construction.  In every state the default constructor succeeds and
yields a stack with `size = 10` and `TOS = -1`; `stack(n)` with `0 ≤ n` succeeds
and yields `size = n` and `TOS = -1`; whenever `stack(n)` yields a stack at all
it has `size = n` and `TOS = -1`; and each construction increases the value of
`getSTKnum()` by exactly one. -/
theorem construction (m : Machine) (junk : Nat → Int) (n : Int) :
    (∃ m1, stack.ctor m junk = .ok (m.objs.length, m1) ∧
      getObj m1 m.objs.length = some ⟨10, m.heap.length, -1⟩ ∧
      snapshot m1 m.objs.length = some [] ∧
      stack.getSTKnum m1 = stack.getSTKnum m + 1) ∧
    (0 ≤ n → ∃ m1, stack.ctor_size m n junk = .ok (m.objs.length, m1) ∧
      getObj m1 m.objs.length = some ⟨n, m.heap.length, -1⟩ ∧
      snapshot m1 m.objs.length = some [] ∧
      stack.getSTKnum m1 = stack.getSTKnum m + 1) ∧
    (∀ this m1, stack.ctor_size m n junk = .ok (this, m1) →
      ∃ t, getObj m1 this = some t ∧ t.size = n ∧ t.TOS = -1 ∧
        stack.getSTKnum m1 = stack.getSTKnum m + 1) := by
  have key : ∀ c : Int, 0 ≤ c →
      getObj ⟨m.heap ++ [some ((List.range c.toNat).map junk)],
          m.objs ++ [some ⟨c, m.heap.length, -1⟩], m.stk_Num + 1, m.out⟩ m.objs.length
        = some ⟨c, m.heap.length, -1⟩ ∧
      snapshot ⟨m.heap ++ [some ((List.range c.toNat).map junk)],
          m.objs ++ [some ⟨c, m.heap.length, -1⟩], m.stk_Num + 1, m.out⟩ m.objs.length
        = some [] := by
    intro c hc
    have o := owns_ctor_size m c junk hc
    exact ⟨o.obj, by rw [snapshot_of_owns o]; rfl⟩
  refine ⟨?_, ?_, ?_⟩
  · have e : stack.ctor m junk = stack.ctor_size m 10 junk := rfl
    rw [e, ctor_size_eq m 10 junk (by decide)]
    exact ⟨_, rfl, (key 10 (by decide)).1, (key 10 (by decide)).2, rfl⟩
  · intro hn
    rw [ctor_size_eq m n junk hn]
    exact ⟨_, rfl, (key n hn).1, (key n hn).2, rfl⟩
  · intro this m1 h
    by_cases hn : n < 0
    · simp [stack.ctor_size, newArr, hn] at h
    · rw [ctor_size_eq m n junk (by omega)] at h
      simp only [Except.ok.injEq, Prod.mk.injEq] at h
      obtain ⟨rfl, rfl⟩ := h
      exact ⟨_, (key n (by omega)).1, rfl, rfl, rfl⟩

/-- Witness for C13: `stack()` and `stack(4)` at the start of a program. -/
theorem construction_witness :
    (∃ m1, stack.ctor Machine.init (fun _ => 0) = .ok (Machine.init.objs.length, m1) ∧
      getObj m1 Machine.init.objs.length = some ⟨10, Machine.init.heap.length, -1⟩ ∧
      snapshot m1 Machine.init.objs.length = some [] ∧
      stack.getSTKnum m1 = stack.getSTKnum Machine.init + 1) ∧
    ((0 : Int) ≤ 4 ∧ ∃ m1, stack.ctor_size Machine.init 4 (fun _ => 0)
        = .ok (Machine.init.objs.length, m1) ∧
      getObj m1 Machine.init.objs.length = some ⟨4, Machine.init.heap.length, -1⟩ ∧
      snapshot m1 Machine.init.objs.length = some [] ∧
      stack.getSTKnum m1 = stack.getSTKnum Machine.init + 1) ∧
    (∃ t, getObj ⟨[some [0, 0, 0, 0]], [some ⟨4, 0, -1⟩], 1, []⟩ 0 = some t ∧ t.size = 4 ∧
      t.TOS = -1 ∧
      stack.getSTKnum ⟨[some [0, 0, 0, 0]], [some ⟨4, 0, -1⟩], 1, []⟩
        = stack.getSTKnum Machine.init + 1) :=
  (fun H => ⟨H.1, ⟨by decide, H.2.1 (by decide)⟩,
      H.2.2 0 ⟨[some [0, 0, 0, 0]], [some ⟨4, 0, -1⟩], 1, []⟩ rfl⟩)
    (construction Machine.init (fun _ => 0) 4)

/-- C15.  Display.  For every stack that satisfies the invariant and owns its
array, `printStack` succeeds and writes a text that is "Stack is Empty" exactly
when `TOS = -1` and otherwise is "Stack elements: ", the stored elements at
indices `0, 1, ..., TOS` in that order, each followed by a blank, and a newline;
nothing but `std::cout` changes; and the friend
`printStackObj(const stack&)` writes the same text and changes nothing else
either. -/
theorem printStack_shows_elements (m : Machine) (this : Nat) (t : stack) (buf : List Int)
    (h : Owns m this t buf) :
    ∃ text xs, snapshot m this = some xs ∧
      stack.printStack m this = .ok { m with out := m.out ++ text } ∧
      printStackObj_ref m this = .ok { m with out := m.out ++ text } ∧
      (text = ["Stack is Empty\n"] ↔ t.TOS = -1) ∧
      (t.TOS ≠ -1 → text = ["Stack elements: "] ++ elementsText xs ++ ["\n"]) ∧
      getObj { m with out := m.out ++ text } this = some t ∧
      snapshot { m with out := m.out ++ text } this = some xs := by
  have hp := printStack_eq h
  have hr : printStackObj_ref m this = stack.printStack m this := rfl
  refine ⟨_, buf.take (t.TOS + 1).toNat, snapshot_of_owns h, hp, by rw [hr, hp], ?_, ?_,
    (owns_out h _).obj, snapshot_of_owns (owns_out h _)⟩
  · by_cases he : t.TOS = -1
    · simp [he]
    · simp [he]
  · intro he
    simp [he]

/-- Witness for C15: the second of the two stacks of `twoStacks`, which holds
5, 6. -/
theorem printStack_shows_elements_witness :
    Owns twoStacks 1 ⟨3, 1, 1⟩ [5, 6, 0] ∧
    stack.printStack twoStacks 1
      = .ok { twoStacks with out := ["Stack elements: ", "5", " ", "6", " ", "\n"] } ∧
    printStackObj_ref twoStacks 1
      = .ok { twoStacks with out := ["Stack elements: ", "5", " ", "6", " ", "\n"] } := by
  have ho : Owns twoStacks 1 ⟨3, 1, 1⟩ [5, 6, 0] := ⟨rfl, rfl, rfl, by decide, by decide⟩
  obtain ⟨text, xs, hs, hp, hr, _, ht, _, _⟩ :=
    printStack_shows_elements twoStacks 1 ⟨3, 1, 1⟩ [5, 6, 0] ho
  have hx : snapshot twoStacks 1 = some [5, 6] := rfl
  rw [hx] at hs
  simp only [Option.some.injEq] at hs
  subst hs
  have htext := ht (by decide)
  subst htext
  exact ⟨ho, hp, hr⟩

/-- C14.  Scenario.  On a stack newly constructed with capacity 3, in any state
of the program: `push(1)`, `push(2)`, `push(3)` each store their value and
write nothing; `push(4)` writes "Stack is Full" and changes nothing else; then
four calls of `pop` return 3, 2, 1 and, on the fourth, take the empty branch,
which writes "Stack is Empty" (and returns the sentinel `-1`) and changes
nothing else. -/
theorem scenario_capacity_three (m : Machine) (junk : Nat → Int) :
    ∃ this m0 m1 m2 m3 m4 m5 m6 m7 m8,
      stack.ctor_size m 3 junk = .ok (this, m0) ∧ snapshot m0 this = some [] ∧
      stack.push m0 this 1 = .ok m1 ∧ snapshot m1 this = some [1] ∧
      stack.push m1 this 2 = .ok m2 ∧ snapshot m2 this = some [1, 2] ∧
      stack.push m2 this 3 = .ok m3 ∧ snapshot m3 this = some [1, 2, 3] ∧
      m3.out = m.out ∧
      stack.push m3 this 4 = .ok m4 ∧ m4 = { m3 with out := m3.out ++ ["Stack is Full\n"] } ∧
      snapshot m4 this = some [1, 2, 3] ∧
      stack.pop m4 this = .ok (3, m5) ∧ snapshot m5 this = some [1, 2] ∧
      stack.pop m5 this = .ok (2, m6) ∧ snapshot m6 this = some [1] ∧
      stack.pop m6 this = .ok (1, m7) ∧ snapshot m7 this = some [] ∧
      m7.out = m4.out ∧
      stack.pop m7 this = .ok (-1, m8) ∧
      m8 = { m7 with out := m7.out ++ ["Stack is Empty\n"] } := by
  have hjb : (List.range (3 : Int).toNat).map junk = [junk 0, junk 1, junk 2] := rfl
  have o0 := owns_ctor_size m 3 junk (by decide)
  have e0 := ctor_size_eq m 3 junk (by decide)
  rw [hjb] at o0 e0
  obtain ⟨m1, e1, o1, u1⟩ := push_step o0 (by norm_num) 1
  have o1 : Owns m1 m.objs.length ⟨3, m.heap.length, 0⟩ [1, junk 1, junk 2] := by
    simpa using o1
  obtain ⟨m2, e2, o2, u2⟩ := push_step o1 (by norm_num) 2
  have o2 : Owns m2 m.objs.length ⟨3, m.heap.length, 1⟩ [1, 2, junk 2] := by
    simpa using o2
  obtain ⟨m3, e3, o3, u3⟩ := push_step o2 (by norm_num) 3
  have o3 : Owns m3 m.objs.length ⟨3, m.heap.length, 2⟩ [1, 2, 3] := by
    simpa using o3
  have e4 := push_full_eq o3.obj (by norm_num) 4
  have o4 := owns_out o3 (m3.out ++ ["Stack is Full\n"])
  obtain ⟨v5, m5, hv5, e5, o5, u5⟩ := pop_step o4 (by norm_num)
  have o5 : Owns m5 m.objs.length ⟨3, m.heap.length, 1⟩ [1, 2, 3] := by
    simpa using o5
  obtain ⟨v6, m6, hv6, e6, o6, u6⟩ := pop_step o5 (by norm_num)
  have o6 : Owns m6 m.objs.length ⟨3, m.heap.length, 0⟩ [1, 2, 3] := by
    simpa using o6
  obtain ⟨v7, m7, hv7, e7, o7, u7⟩ := pop_step o6 (by norm_num)
  have o7 : Owns m7 m.objs.length ⟨3, m.heap.length, -1⟩ [1, 2, 3] := by
    simpa using o7
  have h5 : v5 = 3 := by
    have : (3 : Int) = v5 := by simpa using hv5
    exact this.symm
  have h6 : v6 = 2 := by
    have : (2 : Int) = v6 := by simpa using hv6
    exact this.symm
  have h7 : v7 = 1 := by
    have : (1 : Int) = v7 := by simpa using hv7
    exact this.symm
  subst h5 h6 h7
  have e8 := pop_empty_eq o7.obj (by norm_num)
  refine ⟨m.objs.length, _, m1, m2, m3, { m3 with out := m3.out ++ ["Stack is Full\n"] },
    m5, m6, m7, { m7 with out := m7.out ++ ["Stack is Empty\n"] },
    e0, ?_, e1, ?_, e2, ?_, e3, ?_, ?_, e4, rfl, ?_, e5, ?_, e6, ?_, e7, ?_, ?_, e8, rfl⟩
  · rw [snapshot_of_owns o0]; rfl
  · rw [snapshot_of_owns o1]; rfl
  · rw [snapshot_of_owns o2]; rfl
  · rw [snapshot_of_owns o3]; rfl
  · rw [u3, u2, u1]
  · rw [snapshot_of_owns o4]; rfl
  · rw [snapshot_of_owns o5]; rfl
  · rw [snapshot_of_owns o6]; rfl
  · rw [snapshot_of_owns o7]; rfl
  · rw [u7, u6, u5]

/-- C17.  The copy constructor and the copy assignment of the deep-copy variant
agree observably.  In a well-formed state let `b` be a live stack and `a` a
live stack other than `b`.  Then `stack(b)` and `a = b` both succeed; the new
stack and `a` after the assignment have the `size` of `b`, the `TOS` of `b` and
the stored elements of `b` at indices `0 .. TOS`; the array of the new stack is
a copy of all `size` slots of the array of `b`; and `getSTKnum()` is increased
by one by the copy constructor and left unchanged by the assignment. -/
theorem copy_ctor_agrees_with_assign (m : Machine) (a b : Nat) (ta tb : stack)
    (junk1 junk2 : Nat → Int) (hwf : WellFormed m) (hab : a ≠ b)
    (ha : getObj m a = some ta) (hb : getObj m b = some tb) :
    ∃ c mc ma tc ta1 xs bufb, stack.ctor_copy m b junk1 = .ok (c, mc) ∧
      stack.operator_assign m a b junk2 = .ok ma ∧
      getObj mc c = some tc ∧ getObj ma a = some ta1 ∧
      (tc.size = tb.size ∧ ta1.size = tb.size) ∧ (tc.TOS = tb.TOS ∧ ta1.TOS = tb.TOS) ∧
      snapshot m b = some xs ∧ snapshot mc c = some xs ∧ snapshot ma a = some xs ∧
      m.heap[tb.stk]? = some (some bufb) ∧ mc.heap[tc.stk]? = some (some bufb) ∧
      tc.stk ≠ tb.stk ∧
      stack.getSTKnum mc = stack.getSTKnum m + 1 ∧
      stack.getSTKnum ma = stack.getSTKnum m := by
  obtain ⟨bufa, oa0⟩ := hwf.1 a ta ha
  obtain ⟨bufb, ob0⟩ := hwf.1 b tb hb
  have hsep : ta.stk ≠ tb.stk := fun e => hab (hwf.2 a b ta tb ha hb e)
  obtain ⟨ma, buf1, e1, oa, _, hk, _, _, hnum, _⟩ := assign_spec junk2 hab oa0 ob0 hsep
  obtain ⟨bufc, ec, rfl⟩ := ctor_copy_spec junk1 ob0
  have hbl := heap_lt ob0.arr
  have oc : Owns ⟨(m.heap ++ [some ((List.range tb.size.toNat).map junk1)]).set m.heap.length
        (some bufc), m.objs ++ [some ⟨tb.size, m.heap.length, tb.TOS⟩], m.stk_Num + 1, m.out⟩
      m.objs.length ⟨tb.size, m.heap.length, tb.TOS⟩ bufc := by
    refine ⟨?_, ?_, ob0.len, ob0.lo, ob0.hi⟩
    · rw [getObj_eq_some]; simp
    · simp
  refine ⟨m.objs.length, _, ma, ⟨tb.size, m.heap.length, tb.TOS⟩,
    ⟨tb.size, m.heap.length, tb.TOS⟩, bufc.take (tb.TOS + 1).toNat, bufc, ec, e1, oc.obj,
    oa.obj, ⟨rfl, rfl⟩, ⟨rfl, rfl⟩, snapshot_of_owns ob0, by rw [snapshot_of_owns oc], ?_,
    ob0.arr,
    oc.arr, ?_, rfl, hnum⟩
  · rw [snapshot_of_owns oa, hk]
  · simp only; omega

/-- Witness for C17: in `twoStacks`, a copy of the second stack and the
assignment of the second stack to the first. -/
theorem copy_ctor_agrees_with_assign_witness :
    (WellFormed twoStacks ∧ (0 : Nat) ≠ 1 ∧ getObj twoStacks 0 = some ⟨2, 0, 0⟩ ∧
      getObj twoStacks 1 = some ⟨3, 1, 1⟩) ∧
    ∃ c mc ma tc ta1 xs bufb, stack.ctor_copy twoStacks 1 (fun _ => 0) = .ok (c, mc) ∧
      stack.operator_assign twoStacks 0 1 (fun _ => 7) = .ok ma ∧
      getObj mc c = some tc ∧ getObj ma 0 = some ta1 ∧
      (tc.size = (⟨3, 1, 1⟩ : stack).size ∧ ta1.size = (⟨3, 1, 1⟩ : stack).size) ∧
      (tc.TOS = (⟨3, 1, 1⟩ : stack).TOS ∧ ta1.TOS = (⟨3, 1, 1⟩ : stack).TOS) ∧
      snapshot twoStacks 1 = some xs ∧ snapshot mc c = some xs ∧ snapshot ma 0 = some xs ∧
      twoStacks.heap[(⟨3, 1, 1⟩ : stack).stk]? = some (some bufb) ∧
      mc.heap[tc.stk]? = some (some bufb) ∧
      tc.stk ≠ (⟨3, 1, 1⟩ : stack).stk ∧
      stack.getSTKnum mc = stack.getSTKnum twoStacks + 1 ∧
      stack.getSTKnum ma = stack.getSTKnum twoStacks :=
  ⟨⟨wellFormed_run twoStacksOps Machine.init twoStacks wellFormed_init rfl, by decide, rfl, rfl⟩,
    copy_ctor_agrees_with_assign twoStacks 0 1 ⟨2, 0, 0⟩ ⟨3, 1, 1⟩ (fun _ => 0) (fun _ => 7)
      (wellFormed_run twoStacksOps Machine.init twoStacks wellFormed_init rfl)
      (by decide) rfl rfl⟩

end Stack

namespace ComplexClass

/-! ## Claims about the class `complex` -/

/-- C18.  Complex arithmetic is componentwise modulo `2^32`, and `subComplex`
undoes `addComplex`: for all `a` with `int` components and all `b`,
`a.addComplex(b).subComplex(b)` has the `real` and `img` of `a`;
`a.subComplex(a)` has `real = 0` and `img = 0`, as in `main`, where
`result = c1.subComplex(c3)` with `c1 = c3 = (7, 8)` is `(0, 0)`; and neither
operation changes its receiver or its parameter object. -/
theorem sub_undoes_add (a b : complex) (hr : isInt32 a.real) (hi : isInt32 a.img) :
    ((a.addComplex b).1.real = wrap32 (a.real + b.real) ∧
      (a.addComplex b).1.img = wrap32 (a.img + b.img) ∧
      (a.subComplex b).1.real = wrap32 (a.real - b.real) ∧
      (a.subComplex b).1.img = wrap32 (a.img - b.img)) ∧
    (((a.addComplex b).1.subComplex b).1 = a) ∧
    ((a.subComplex a).1 = ⟨0, 0⟩) ∧
    (main_objects = (⟨7, 8⟩, ⟨7, 8⟩, ⟨0, 0⟩)) ∧
    ((a.addComplex b).2 = (a, b) ∧ (a.subComplex b).2 = (a, b)) := by
  obtain ⟨x, y⟩ := a
  obtain ⟨u, v⟩ := b
  simp only [isInt32] at hr hi
  refine ⟨⟨rfl, rfl, rfl, rfl⟩, ?_, ?_, by decide, ⟨rfl, rfl⟩⟩
  · simp only [complex.addComplex, complex.subComplex, complex.ctor, wrap32, complex.mk.injEq]
    constructor <;> omega
  · simp only [complex.subComplex, complex.ctor, wrap32, complex.mk.injEq]
    constructor <;> omega

/-- Witness for C18: `(2147483647, -5)` and `(1, 3)`, where the sum of the real
parts wraps around. -/
theorem sub_undoes_add_witness :
    (isInt32 (⟨2147483647, -5⟩ : complex).real ∧ isInt32 (⟨2147483647, -5⟩ : complex).img) ∧
    ((complex.addComplex ⟨2147483647, -5⟩ ⟨1, 3⟩).1 = ⟨-2147483648, -2⟩) ∧
    (((complex.addComplex ⟨2147483647, -5⟩ ⟨1, 3⟩).1.subComplex ⟨1, 3⟩).1
      = ⟨2147483647, -5⟩) :=
  ⟨⟨by decide, by decide⟩, by decide,
    (sub_undoes_add ⟨2147483647, -5⟩ ⟨1, 3⟩ (by decide) (by decide)).2.1⟩

end ComplexClass

namespace LibSystem

/-! ## Claims about the class `Book` -/

/-- After a sequence of calls a book is available as the last call says, or as
it was when there was no call; the other data members are kept. -/
theorem calls_spec (cs : List Call) :
    ∀ b : Book, ((b.calls cs).1.isAvailable =
        match cs.getLast? with
        | none => b.isAvailable
        | some Call.borrowItem => false
        | some Call.returnItem => true) ∧
      (b.calls cs).1.title = b.title ∧ (b.calls cs).1.author = b.author ∧
      (b.calls cs).1.bookID = b.bookID := by
  induction cs with
  | nil => intro b; exact ⟨rfl, rfl, rfl, rfl⟩
  | cons c cs ih =>
    intro b
    cases cs with
    | nil =>
      cases c
      · by_cases hb : b.isAvailable = true <;> simp [Book.calls, Book.borrowItem, hb]
      · simp [Book.calls, Book.returnItem]
    | cons c1 cs1 =>
      have hl : ∃ l, (c1 :: cs1).getLast? = some l := by
        cases hx : (c1 :: cs1).getLast? with
        | none => simp at hx
        | some l => exact ⟨l, rfl⟩
      obtain ⟨l, hl⟩ := hl
      cases c
      · have h := ih b.borrowItem.1
        simp only [List.getLast?_cons_cons, hl] at h ⊢
        have e : (b.calls (Call.borrowItem :: c1 :: cs1)).1
            = (b.borrowItem.1.calls (c1 :: cs1)).1 := by
          simp only [Book.calls]
        rw [e]
        refine ⟨by cases l <;> exact h.1, ?_, ?_, ?_⟩
        · rw [h.2.1]; by_cases hb : b.isAvailable = true <;> simp [Book.borrowItem, hb]
        · rw [h.2.2.1]; by_cases hb : b.isAvailable = true <;> simp [Book.borrowItem, hb]
        · rw [h.2.2.2]; by_cases hb : b.isAvailable = true <;> simp [Book.borrowItem, hb]
      · have h := ih b.returnItem.1
        simp only [List.getLast?_cons_cons, hl] at h ⊢
        have e : (b.calls (Call.returnItem :: c1 :: cs1)).1
            = (b.returnItem.1.calls (c1 :: cs1)).1 := by
          simp only [Book.calls]
        rw [e]
        exact ⟨by cases l <;> exact h.1, by rw [h.2.1]; rfl, by rw [h.2.2.1]; rfl,
          by rw [h.2.2.2]; rfl⟩

/-- C19.  A newly constructed `Book` is available.  After every sequence of
`borrowItem` and `returnItem` calls on it, `checkAvailability()` is false
exactly when the most recent call was `borrowItem`, and `title`, `author` and
`bookID` are those given to the constructor.  `borrowItem` on a book that is
not available changes nothing and reports "Book is not available!";
`returnItem` always makes the book available. -/
theorem book_availability (title author : String) (bookID : Int) (cs : List Call) :
    (Book.ctor title author bookID).checkAvailability = true ∧
    ((((Book.ctor title author bookID).calls cs).1.checkAvailability = false) ↔
      cs.getLast? = some Call.borrowItem) ∧
    (((Book.ctor title author bookID).calls cs).1.title = title ∧
      ((Book.ctor title author bookID).calls cs).1.author = author ∧
      ((Book.ctor title author bookID).calls cs).1.bookID = bookID) ∧
    (Book.borrowItem ⟨title, author, bookID, false⟩
      = (⟨title, author, bookID, false⟩, ["Book is not available!", "\n"])) ∧
    (∀ b : Book, b.returnItem.1.checkAvailability = true ∧
      b.borrowItem.1.checkAvailability = false) := by
  obtain ⟨h1, h2, h3, h4⟩ := calls_spec cs (Book.ctor title author bookID)
  refine ⟨rfl, ?_, ⟨h2, h3, h4⟩, rfl, ?_⟩
  · simp only [Book.checkAvailability, h1]
    cases hl : cs.getLast? with
    | none => simp [Book.ctor]
    | some c => cases c <;> simp
  · intro b
    refine ⟨rfl, ?_⟩
    by_cases hb : b.isAvailable = true <;> simp [Book.borrowItem, Book.checkAvailability, hb]

end LibSystem
